import Mathlib

/-!
Verification development for the shipping statistical-analysis engine
(`statistical_analysis/statistics_analyzer.py`) and its persistent
request-loop wrapper (`fastify-inference-server/persistent_analytics_service.py`).

Modelling conventions:
* Python floats are modelled as exact rationals (`ℚ`).  All dataframe
  arithmetic (sums, means, quantiles, histogram edges) is closed over `ℚ`.
* `numpy.sqrt` / the square root inside `pandas.Series.std` produces
  irrational values in general, so every operation that takes a square root
  is parameterised by an explicit function `sq : ℚ → ℚ` standing for the
  (rounded) float square root.  Theorems quantify over `sq`, hence hold in
  particular for the actual float square root (whose outputs are rationals).
  Concrete evaluations instantiate `sq` with `rsqrt`, which is exact on the
  perfect-square rationals arising in the concrete datasets used here.
* `pandas.Series.std`/`var` use `ddof = 1`; on a single-element series the
  divisor is zero and the float result is NaN.  NaN-able quantities are
  modelled as `Option ℚ` with `none` playing NaN, and the Python `<` on
  floats (false whenever either side is NaN) is modelled by `pyLt`.
* The Shapiro–Wilk statistic is computed by external Fortran code; it is
  modelled as a parameter `shap : List ℚ → ℚ × ℚ` applied to exactly the
  (sub)sample the source draws.  The unseeded draw of
  `pandas.Series.sample` is modelled by an explicit choice of row indices.
-/

/- The core arithmetic on `ℚ` is marked `@[irreducible]`, which blocks
`decide`-style evaluation of the concrete instances below; restore the
ordinary transparency of those operations (the kernel unfolds them either
way, so this affects elaboration only). -/
set_option allowUnsafeReducibility true
attribute [semireducible] Rat.add Rat.mul Rat.sub Rat.inv Rat.ofScientific

namespace Shipping

/-- Integer square root (largest `k` with `k·k ≤ n`), written as a bounded
search so that it evaluates by kernel reduction. -/
def natSqrt (n : ℕ) : ℕ := ((List.range (n + 1)).filter (fun k => k * k ≤ n)).length - 1

/-- Exact square root on rationals whose numerator and denominator are
perfect squares (the only inputs it is applied to in concrete statements);
stands in for the float square root there. -/
def rsqrt (q : ℚ) : ℚ := (natSqrt q.num.toNat : ℚ) / (natSqrt q.den : ℚ)

/-- Python float `<` lifted to NaN-able values: any comparison involving
NaN is false. -/
def pyLt : Option ℚ → Option ℚ → Bool
  | some a, some b => decide (a < b)
  | _, _ => false

/-- The scan shared by the Python `min` and `max` with a key: walk left to right,
replacing the current best only when `blt y best` holds, so the first
optimum wins ties. -/
def pickMin {α : Type} (blt : α → α → Bool) (b : α) (l : List α) : α :=
  l.foldl (fun best y => if blt y best then y else best) b

/-- Model of the Python `min(iterable, key=f)`: replace only on a strict `<` of keys,
so the first minimum wins and a NaN key is never considered smaller (nor
larger) than anything. -/
def pyMinBy {α : Type} (key : α → Option ℚ) : List α → Option α
  | [] => none
  | x :: xs => some (pickMin (fun a b => pyLt (key a) (key b)) x xs)

/-- Model of the Python `max(iterable, key=f)` on nat-valued keys: first maximum wins. -/
def pyMaxBy {α : Type} (key : α → ℕ) : List α → Option α
  | [] => none
  | x :: xs => some (pickMin (fun a b => decide (key b < key a)) x xs)

/-- Python dict update `d[k] = d.get(k, 0) + 1`, which preserves the
insertion position of an existing key and appends a fresh key. -/
def bump (d : List (String × ℕ)) (k : String) : List (String × ℕ) :=
  if d.any (fun e => e.1 = k) then
    d.map (fun e => if e.1 = k then (e.1, e.2 + 1) else e)
  else d ++ [(k, 1)]

/-- Model of `pandas.Series.unique`: values in order of first appearance. -/
def uniqueFirst (l : List String) : List String :=
  l.foldl (fun acc s => if s ∈ acc then acc else acc ++ [s]) []

/-- Sorting a column, ascending (what `quantile`/`median` sort internally). -/
def sortQ (l : List ℚ) : List ℚ := l.insertionSort (· ≤ ·)

/-- Sum of a column. -/
def sumQ (l : List ℚ) : ℚ := l.sum

/-- Model of `Series.mean`: sum divided by length. -/
def meanQ (l : List ℚ) : ℚ := sumQ l / l.length

/-- Model of `Series.min`: least element (head of the ascending sort). -/
def pdMin (l : List ℚ) : ℚ := (sortQ l).getD 0 0

/-- Model of `Series.max`: greatest element (last of the ascending sort). -/
def pdMax (l : List ℚ) : ℚ := (sortQ l).getD (l.length - 1) 0

/-- Virtual index of the `q`-quantile: `h = q·(n−1)`. -/
def qIndex (l : List ℚ) (q : ℚ) : ℚ := q * ((l.length : ℚ) - 1)

/-- The sorted value at the floor of the virtual index. -/
def qLo (l : List ℚ) (q : ℚ) : ℚ := (sortQ l).getD (Int.floor (qIndex l q)).toNat 0

/-- The sorted value at the ceiling of the virtual index. -/
def qHi (l : List ℚ) (q : ℚ) : ℚ := (sortQ l).getD (Int.ceil (qIndex l q)).toNat 0

/-- Model of `Series.quantile(q)` with the default linear interpolation:
virtual index `h = q·(n−1)`, result `s[⌊h⌋] + (h−⌊h⌋)·(s[⌈h⌉] − s[⌊h⌋])`
on the ascending sort `s`. -/
def quantileQ (l : List ℚ) (q : ℚ) : ℚ :=
  qLo l q + (qIndex l q - ((Int.floor (qIndex l q)).toNat : ℚ)) * (qHi l q - qLo l q)

/-- Model of `Series.median`: the 0.5 quantile. -/
def medianQ (l : List ℚ) : ℚ := quantileQ l (1/2)

/-- Sum of squared deviations from the mean. -/
def ssq (l : List ℚ) : ℚ := (l.map (fun x => (x - meanQ l) ^ 2)).sum

/-- Model of `Series.var()` (`ddof = 1`): NaN (`none`) when `n ≤ 1`. -/
def sampleVar (l : List ℚ) : Option ℚ :=
  if l.length ≤ 1 then none else some (ssq l / ((l.length : ℚ) - 1))

/-- Model of `Series.std()` (`ddof = 1`): square root of `sampleVar`; NaN for `n ≤ 1`. -/
def sampleStd (sq : ℚ → ℚ) (l : List ℚ) : Option ℚ :=
  (sampleVar l).map sq

/-- Central moment `m_k = (1/n)·Σ (x − mean)^k` (used by `scipy.stats.skew`
and `scipy.stats.kurtosis`). -/
def centralMoment (l : List ℚ) (k : ℕ) : ℚ :=
  (l.map (fun x => (x - meanQ l) ^ k)).sum / l.length

/-- One row of the shipping dataframe (only the columns the analyzer reads). -/
structure ShipmentRecord where
  carrier : String
  service_level : String
  dest_zone : Int
  transit_time_days : ℚ
  shipping_cost_usd : ℚ
deriving DecidableEq

/-- The two metric columns accepted by the analyzer. -/
inductive Metric where
  | transit_time_days
  | shipping_cost_usd
deriving DecidableEq

def metricOf (m : Metric) (r : ShipmentRecord) : ℚ :=
  match m with
  | .transit_time_days => r.transit_time_days
  | .shipping_cost_usd => r.shipping_cost_usd

/-- Catalogs of `distribution_metadata.json` used to drive iteration. -/
structure Metadata where
  service_levels : List String
  usps_zones : List Int
deriving DecidableEq

/-- State of `ShippingStatisticsAnalyzer` after `load_data`: the dataframe plus
catalog metadata. -/
structure Analyzer where
  df : List ShipmentRecord
  metadata : Metadata
deriving DecidableEq

/-- Column selection `self.df[(self.df["service_level"] == service) & (self.df["dest_zone"] == zone)][metric]`. -/
def segment (a : Analyzer) (sl : String) (zone : Int) (m : Metric) : List ℚ :=
  (a.df.filter (fun r => r.service_level = sl ∧ r.dest_zone = zone)).map (metricOf m)

/-- The per-carrier refinement used by `compare_carriers_by_zone`:
`zone_data[(zone_data["carrier"] == carrier) & (zone_data["service_level"] == service)][metric]`. -/
def carrierSegment (a : Analyzer) (carrier sl : String) (zone : Int) (m : Metric) : List ℚ :=
  ((a.df.filter (fun r => r.dest_zone = zone)).filter
      (fun r => r.carrier = carrier ∧ r.service_level = sl)).map (metricOf m)

/-! ### `get_distribution_stats` -/

/-- The values `data.sample(min(5000, len(data)))` hands to
`scipy.stats.shapiro`, for a given choice of row positions.
`pandas.Series.sample` without `random_state` makes the choice
non-deterministically. -/
def normalitySample (data : List ℚ) (choice : List ℕ) : List ℚ :=
  choice.map (fun i => data.getD i 0)

/-- What `Series.sample(min(5000, len(data)))` may draw: that many distinct
in-range row positions, in any order. -/
def ValidSampleChoice (data : List ℚ) (choice : List ℕ) : Prop :=
  choice.Nodup ∧ choice.length = min 5000 data.length ∧ ∀ i ∈ choice, i < data.length

instance (data : List ℚ) (choice : List ℕ) : Decidable (ValidSampleChoice data choice) := by
  unfold ValidSampleChoice; infer_instance

/-- The 11-point percentile ladder of `get_distribution_stats`. -/
structure PercentileLadder where
  p10 : ℚ
  p20 : ℚ
  p30 : ℚ
  p40 : ℚ
  p50 : ℚ
  p60 : ℚ
  p70 : ℚ
  p80 : ℚ
  p90 : ℚ
  p95 : ℚ
  p99 : ℚ
deriving DecidableEq

/-- The `normality_test` sub-dict. -/
structure NormalityTest where
  shapiro_wilk_statistic : ℚ
  shapiro_wilk_p_value : ℚ
  is_normal_p05 : Bool
deriving DecidableEq

/-- The stats dict built by `get_distribution_stats`.  `std`/`var` are
`Option ℚ` because the pandas `ddof = 1` estimators are NaN on one record;
`skewness`/`kurtosis` are NaN when the second central moment vanishes. -/
structure DistStats where
  count : ℕ
  mean : ℚ
  median : ℚ
  std : Option ℚ
  var : Option ℚ
  min : ℚ
  max : ℚ
  q25 : ℚ
  q75 : ℚ
  iqr : ℚ
  skewness : Option ℚ
  kurtosis : Option ℚ
  percentiles : PercentileLadder
  normality_test : NormalityTest
deriving DecidableEq

/-- Message of the `ValueError` raised by `scipy.stats.shapiro` when the
sample has fewer than three observations. -/
def shapiroLenMsg : String := "Data must be at least length 3."

/-- Model of `scipy.stats.skew` (biased): `m3 / m2^1.5`, NaN when `m2 = 0`. -/
def skewQ (sq : ℚ → ℚ) (l : List ℚ) : Option ℚ :=
  if centralMoment l 2 = 0 then none
  else some (centralMoment l 3 / (centralMoment l 2 * sq (centralMoment l 2)))

/-- Model of `scipy.stats.kurtosis` (Fisher, biased): `m4 / m2² − 3`, NaN when `m2 = 0`. -/
def kurtosisQ (l : List ℚ) : Option ℚ :=
  if centralMoment l 2 = 0 then none
  else some (centralMoment l 4 / (centralMoment l 2 * centralMoment l 2) - 3)

/-- Model of `get_distribution_stats(service_level, zone, metric)`.
Returns `.ok none` for an empty segment (source returns `None`); raises the
Shapiro–Wilk `ValueError` when the segment (hence the capped sample) has
fewer than 3 records — the already-built stats dict is discarded by the
exception, so the net result is the error. -/
def get_distribution_stats (sq : ℚ → ℚ) (shap : List ℚ → ℚ × ℚ) (choice : List ℕ)
    (a : Analyzer) (sl : String) (zone : Int) (m : Metric) :
    Except String (Option DistStats) :=
  let data := segment a sl zone m
  if data.length = 0 then .ok none
  else if data.length < 3 then .error shapiroLenMsg
  else
    let sw := shap (normalitySample data choice)
    .ok (some
      { count := data.length
        mean := meanQ data
        median := medianQ data
        std := sampleStd sq data
        var := sampleVar data
        min := pdMin data
        max := pdMax data
        q25 := quantileQ data (1/4)
        q75 := quantileQ data (3/4)
        iqr := quantileQ data (3/4) - quantileQ data (1/4)
        skewness := skewQ sq data
        kurtosis := kurtosisQ data
        percentiles :=
          { p10 := quantileQ data (10/100), p20 := quantileQ data (20/100)
            p30 := quantileQ data (30/100), p40 := quantileQ data (40/100)
            p50 := quantileQ data (50/100), p60 := quantileQ data (60/100)
            p70 := quantileQ data (70/100), p80 := quantileQ data (80/100)
            p90 := quantileQ data (90/100), p95 := quantileQ data (95/100)
            p99 := quantileQ data (99/100) }
        normality_test :=
          { shapiro_wilk_statistic := sw.1
            shapiro_wilk_p_value := sw.2
            is_normal_p05 := decide (sw.2 > 5/100) } })

/-! ### `compare_service_levels_2sigma` -/

/-- Per-service entry of `compare_service_levels_2sigma`.  All the
std-derived fields are NaN (`none`) exactly when `std` is. -/
structure Sigma2Stats where
  mean : ℚ
  std : Option ℚ
  lower_2sigma : Option ℚ
  upper_2sigma : Option ℚ
  range_2sigma : Option ℚ
  ci95_low : Option ℚ
  ci95_high : Option ℚ
deriving DecidableEq

/-- The `winner` entry of a zone in `compare_service_levels_2sigma`. -/
structure SLWinner where
  service_level : String
  reason : String
  transit_time_upper : Option ℚ
deriving DecidableEq

/-- Value of one zone in the result of `compare_service_levels_2sigma`. -/
structure Sigma2Zone where
  services : List (String × Sigma2Stats)
  winner : Option SLWinner
deriving DecidableEq

/-- The per-service statistics block of `compare_service_levels_2sigma`. -/
def sigma2StatsOf (sq : ℚ → ℚ) (data : List ℚ) : Sigma2Stats :=
  let mean := meanQ data
  let std := sampleStd sq data
  { mean := mean
    std := std
    lower_2sigma := std.map (fun s => mean - 2 * s)
    upper_2sigma := std.map (fun s => mean + 2 * s)
    range_2sigma := std.map (fun s => 4 * s)
    ci95_low := std.map (fun s => mean - (49/25 : ℚ) * s / sq (data.length : ℚ))
    ci95_high := std.map (fun s => mean + (49/25 : ℚ) * s / sq (data.length : ℚ)) }

/-- Per-service row of one zone of `compare_service_levels_2sigma`
(`None` when the segment is empty, i.e. the service level is skipped). -/
def sigma2Entry (sq : ℚ → ℚ) (a : Analyzer) (zone : Int) (service : String) :
    Option (String × Sigma2Stats) :=
  if (segment a service zone .transit_time_days).length = 0 then none
  else some (service, sigma2StatsOf sq (segment a service zone .transit_time_days))

/-- One zone of `compare_service_levels_2sigma`: stats for every service
level with data (iterating the service-level catalog), and the winner
picked by Python `min` on the `upper_2sigma` key. -/
def sigma2ZoneOf (sq : ℚ → ℚ) (a : Analyzer) (zone : Int) : Sigma2Zone :=
  let services := a.metadata.service_levels.filterMap (sigma2Entry sq a zone)
  let winner := (pyMinBy (fun e => e.2.upper_2sigma) services).map (fun w =>
    { service_level := w.1
      reason := "lowest_2sigma_upper_bound"
      transit_time_upper := w.2.upper_2sigma })
  { services := services, winner := winner }

/-- Model of `compare_service_levels_2sigma(zones)`. -/
def compare_service_levels_2sigma (sq : ℚ → ℚ) (a : Analyzer) (zones : List Int) :
    List (Int × Sigma2Zone) :=
  zones.map (fun zone => (zone, sigma2ZoneOf sq a zone))

/-! ### `compare_carriers_by_zone` -/

/-- Per-carrier statistics block.  Present only for carriers with more than
5 matching records, so `n−1 ≥ 5` and nothing here is NaN. -/
structure CarrierStat where
  mean : ℚ
  median : ℚ
  std : ℚ
  q25 : ℚ
  q75 : ℚ
  sample_size : ℕ
  lower_2sigma : ℚ
  upper_2sigma : ℚ
  reliability_score : ℚ
deriving DecidableEq

/-- The `winner_median` entry of one service-level comparison. -/
structure WinnerMedian where
  carrier : String
  reason : String
  value : ℚ
  advantage_over_avg : ℚ
deriving DecidableEq

/-- The `winner_2sigma` entry of one service-level comparison. -/
structure Winner2Sigma where
  carrier : String
  reason : String
  value : ℚ
  median : ℚ
  std : ℚ
  advantage_over_avg : ℚ
deriving DecidableEq

/-- Carrier comparison of one service level.  The source stores the winner
entries in the same dict as the per-carrier stats under the reserved keys
`winner_median` / `winner_2sigma` / `winner`; they are separated here.
(The combination scan below only accepts entries carrying all of
`median`, `upper_2sigma` and `reliability_score`, which the winner dicts
lack, so the separation does not change which entries it sees.) -/
structure ServiceComparison where
  stats : List (String × CarrierStat)
  winner_median : Option WinnerMedian
  winner_2sigma : Option Winner2Sigma
deriving DecidableEq

/-- A `(carrier, service)` combination collected for the overall-winner
scan, with the fields both scans read. -/
structure Combo where
  carrier : String
  service : String
  median : ℚ
  reliability : ℚ
  upper_2sigma : ℚ
  std : ℚ
deriving DecidableEq

/-- Payload of `overall_winner_median`. -/
structure OverallMedian where
  carrier : String
  service_level : String
  median_value : ℚ
  reliability_score : ℚ
deriving DecidableEq

/-- Payload of `overall_winner_2sigma`. -/
structure Overall2Sigma where
  carrier : String
  service_level : String
  upper_2sigma_value : ℚ
  median_value : ℚ
  std_value : ℚ
deriving DecidableEq

/-- Value of one zone in `compare_carriers_by_zone`. -/
structure CarrierZone where
  zone : Int
  comparisons : List (String × ServiceComparison)
  overall_winner_median : Option OverallMedian
  overall_winner_2sigma : Option Overall2Sigma
deriving DecidableEq

/-- The per-carrier statistics computed when `len(carrier_service_data) > 5`. -/
def carrierStatOf (sq : ℚ → ℚ) (data : List ℚ) : CarrierStat :=
  let mean := meanQ data
  let std := sq (ssq data / ((data.length : ℚ) - 1))
  { mean := mean
    median := medianQ data
    std := std
    q25 := quantileQ data (1/4)
    q75 := quantileQ data (3/4)
    sample_size := data.length
    lower_2sigma := mean - 2 * std
    upper_2sigma := mean + 2 * std
    reliability_score := 1 / (std + 1/10) }

/-- Comparison of one service level across carriers (the two winner scans are
Python `min` with `median` resp. `upper_2sigma` keys; both metric branches
of the source compute the same minima). -/
def serviceComparisonOf (sq : ℚ → ℚ) (a : Analyzer) (zone : Int) (m : Metric)
    (carriers : List String) (service : String) : ServiceComparison :=
  let stats := carriers.filterMap (fun carrier =>
    let data := carrierSegment a carrier service zone m
    if 5 < data.length then some (carrier, carrierStatOf sq data) else none)
  let ranking_metric := match m with
    | .transit_time_days => "median_transit_time"
    | .shipping_cost_usd => "median_cost"
  let wm := (pyMinBy (fun e => some e.2.median) stats).map (fun w =>
    { carrier := w.1
      reason := "lowest_" ++ ranking_metric
      value := w.2.median
      advantage_over_avg := meanQ (stats.map (fun e => e.2.median)) - w.2.median })
  let w2 := (pyMinBy (fun e => some e.2.upper_2sigma) stats).map (fun w =>
    { carrier := w.1
      reason := "lowest_2sigma_upper_bound"
      value := w.2.upper_2sigma
      median := w.2.median
      std := w.2.std
      advantage_over_avg := meanQ (stats.map (fun e => e.2.upper_2sigma)) - w.2.upper_2sigma })
  { stats := stats, winner_median := wm, winner_2sigma := w2 }

/-- The flat list of `(carrier, service)` combinations that the overall
scans of a zone minimise over, in comparison/stats iteration order. -/
def zoneCombos (comparisons : List (String × ServiceComparison)) : List Combo :=
  comparisons.flatMap (fun sc =>
    sc.2.stats.map (fun e =>
      { carrier := e.1, service := sc.1, median := e.2.median
        reliability := e.2.reliability_score, upper_2sigma := e.2.upper_2sigma
        std := e.2.std }))

/-- One zone of `compare_carriers_by_zone`: carriers and service levels are
`Series.unique` of the rows of the zone (order of first appearance). -/
def carrierZoneOf (sq : ℚ → ℚ) (a : Analyzer) (m : Metric) (zone : Int) : CarrierZone :=
  let zone_data := a.df.filter (fun r => r.dest_zone = zone)
  let carriers := uniqueFirst (zone_data.map (fun r => r.carrier))
  let service_levels := uniqueFirst (zone_data.map (fun r => r.service_level))
  let comparisons := service_levels.map (fun service =>
    (service, serviceComparisonOf sq a zone m carriers service))
  let combos := zoneCombos comparisons
  let owm := (pyMinBy (fun c => some (c.median / c.reliability)) combos).map (fun c =>
    { carrier := c.carrier, service_level := c.service
      median_value := c.median, reliability_score := c.reliability })
  let ow2 := (pyMinBy (fun c => some c.upper_2sigma) combos).map (fun c =>
    { carrier := c.carrier, service_level := c.service
      upper_2sigma_value := c.upper_2sigma, median_value := c.median
      std_value := c.std })
  { zone := zone, comparisons := comparisons
    overall_winner_median := owm, overall_winner_2sigma := ow2 }

/-- The summary dicts of `_generate_carrier_comparison_summary`. -/
structure CarrierSummary where
  carrier_wins_by_median : List (String × ℕ)
  carrier_wins_by_2sigma : List (String × ℕ)
  best_combinations_median : List (String × ℕ)
  best_combinations_2sigma : List (String × ℕ)
  top_carrier_median : Option String
  top_carrier_2sigma : Option String
deriving DecidableEq

/-- Intermediate accumulator for the summary tallies. -/
structure SummaryAcc where
  cm : List (String × ℕ)
  c2 : List (String × ℕ)
  sm : List (String × ℕ)
  s2 : List (String × ℕ)

/-- The per-zone tallying pass of `_generate_carrier_comparison_summary`:
service-level wins per carrier for each method (also keyed
`"<carrier>_<service>"` into the best-combination dicts), then the overall
zone winners under keys `"<carrier>_overall"` in the same win dicts. -/
def summaryTallyZone (acc : SummaryAcc) (z : CarrierZone) : SummaryAcc :=
  let acc := z.comparisons.foldl (fun acc sc =>
    let acc := match sc.2.winner_median with
      | some w =>
          { acc with cm := bump acc.cm w.carrier
                     sm := bump acc.sm (w.carrier ++ "_" ++ sc.1) }
      | none => acc
    match sc.2.winner_2sigma with
      | some w =>
          { acc with c2 := bump acc.c2 w.carrier
                     s2 := bump acc.s2 (w.carrier ++ "_" ++ sc.1) }
      | none => acc) acc
  let acc := match z.overall_winner_median with
    | some w => { acc with cm := bump acc.cm (w.carrier ++ "_overall") }
    | none => acc
  match z.overall_winner_2sigma with
    | some w => { acc with c2 := bump acc.c2 (w.carrier ++ "_overall") }
    | none => acc

/-- Model of `_generate_carrier_comparison_summary`: tally across zones, then take
`max(..., key=value)` of each win dict (first maximal key wins). -/
def generate_carrier_comparison_summary (zs : List CarrierZone) : CarrierSummary :=
  let acc := zs.foldl summaryTallyZone ⟨[], [], [], []⟩
  { carrier_wins_by_median := acc.cm
    carrier_wins_by_2sigma := acc.c2
    best_combinations_median := acc.sm
    best_combinations_2sigma := acc.s2
    top_carrier_median := (pyMaxBy (fun e => e.2) acc.cm).map (fun e => e.1)
    top_carrier_2sigma := (pyMaxBy (fun e => e.2) acc.c2).map (fun e => e.1) }

/-- Result of `compare_carriers_by_zone`. -/
structure CarrierComparisonResult where
  metric : Metric
  zones : List (Int × CarrierZone)
  summary : CarrierSummary
deriving DecidableEq

/-- Model of `compare_carriers_by_zone(zones, metric)`. -/
def compare_carriers_by_zone (sq : ℚ → ℚ) (a : Analyzer) (zones : List Int) (m : Metric) :
    CarrierComparisonResult :=
  let zs := zones.map (fun zone => (zone, carrierZoneOf sq a m zone))
  { metric := m
    zones := zs
    summary := generate_carrier_comparison_summary (zs.map (fun p => p.2)) }

/-! ### `find_best_service_by_percentile` -/

/-- Per-service entry of `find_best_service_by_percentile`. -/
structure PercentileEntry where
  metric_value : ℚ
  percentile_threshold : ℚ
  records_in_percentile : ℕ
  total_records : ℕ
  percentile_coverage : ℚ
  method : String
deriving DecidableEq

/-- The `winner` entry of a zone in `find_best_service_by_percentile`. -/
structure PercentileWinner where
  service_level : String
  metric_value : ℚ
deriving DecidableEq

/-- Value of one zone in `find_best_service_by_percentile`. -/
structure PercentileZone where
  services : List (String × PercentileEntry)
  winner : Option PercentileWinner
deriving DecidableEq

/-- Per-service row of `find_best_service_by_percentile`: filter the
segment to the `percentile/100` quantile threshold; skip the service level
when the segment, or the filtered subset, is empty.  Any `method` other
than `"median"` means the mean (source: `if method == "median" ... else
mean`). -/
def percentileServiceEntry (a : Analyzer) (percentile : ℚ) (method : String)
    (zone : Int) (service : String) : Option (String × PercentileEntry) :=
  let data := segment a service zone .transit_time_days
  if data.length = 0 then none
  else
    let threshold := quantileQ data (percentile / 100)
    let filtered := data.filter (fun x => x ≤ threshold)
    if filtered.length = 0 then none
    else
      let mv := if method = "median" then medianQ filtered else meanQ filtered
      some (service,
        { metric_value := mv
          percentile_threshold := threshold
          records_in_percentile := filtered.length
          total_records := data.length
          percentile_coverage := (filtered.length : ℚ) / (data.length : ℚ) * 100
          method := method })

/-- One zone of `find_best_service_by_percentile`, iterating the
service-level catalog; winner = Python `min` on the filtered metric. -/
def percentileZoneOf (a : Analyzer) (percentile : ℚ) (method : String)
    (zone : Int) : PercentileZone :=
  let services :=
    a.metadata.service_levels.filterMap (percentileServiceEntry a percentile method zone)
  let winner := (pyMinBy (fun e => some e.2.metric_value) services).map (fun w =>
    { service_level := w.1, metric_value := w.2.metric_value })
  { services := services, winner := winner }

/-- Model of `find_best_service_by_percentile(percentile, zones, method)`. -/
def find_best_service_by_percentile (a : Analyzer) (percentile : ℚ)
    (zones : List Int) (method : String) : List (Int × PercentileZone) :=
  zones.map (fun zone => (zone, percentileZoneOf a percentile method zone))

/-! ### `get_histogram_data` -/

/-- Bin edges of `np.histogram`: `first + j·(last−first)/b`. -/
def histEdge (first last : ℚ) (b : ℕ) (j : ℕ) : ℚ :=
  first + (j : ℚ) * ((last - first) / (b : ℚ))

/-- Outer range of `np.histogram`: `[min, max]` of the data, expanded to
`[min − 0.5, max + 0.5]` when the two coincide. -/
def histRange (data : List ℚ) : ℚ × ℚ :=
  if pdMin data = pdMax data then (pdMin data - 1/2, pdMax data + 1/2)
  else (pdMin data, pdMax data)

/-- Membership test of bin `j` (of `b`): left-inclusive, right-exclusive,
except the final bin which is right-inclusive. -/
def binPred (first last : ℚ) (b : ℕ) (j : ℕ) (x : ℚ) : Bool :=
  if j + 1 < b then
    decide (histEdge first last b j ≤ x ∧ x < histEdge first last b (j + 1))
  else
    decide (histEdge first last b j ≤ x ∧ x ≤ histEdge first last b b)

/-- Per-bin counts of `np.histogram(data, bins=b)`. -/
def histCounts (data : List ℚ) (first last : ℚ) (b : ℕ) : List ℕ :=
  (List.range b).map (fun j => data.countP (binPred first last b j))

/-- Result dict of `get_histogram_data`. -/
structure HistogramData where
  bins : List ℚ
  counts : List ℕ
  total_count : ℕ
  bin_width : ℚ
deriving DecidableEq

/-- Model of `get_histogram_data(service_level, zone, metric, bins)`: `None` on an
empty segment, else `np.histogram` counts, bin centers, total count, and
the width `bin_edges[1] − bin_edges[0]`. -/
def get_histogram_data (a : Analyzer) (sl : String) (zone : Int) (m : Metric)
    (bins : ℕ) : Option HistogramData :=
  let data := segment a sl zone m
  if data.length = 0 then none
  else
    let fl := histRange data
    some
      { bins := (List.range bins).map (fun j =>
          (histEdge fl.1 fl.2 bins j + histEdge fl.1 fl.2 bins (j + 1)) / 2)
        counts := histCounts data fl.1 fl.2 bins
        total_count := data.length
        bin_width := histEdge fl.1 fl.2 bins 1 - histEdge fl.1 fl.2 bins 0 }

/-! ### `persistent_analytics_service.py` request loop

The analytics computations invoked by the dispatcher are abstracted as a
parameter `exec : String → List PyVal → Except PyExc PyVal` (the operation
name with its already-parsed arguments); every theorem below quantifies
over `exec`, so it holds for the actual analyzer in particular.  The
routing, parameter extraction and exception discipline are translated from
`handle_request` / `run`. -/

/-- A parsed JSON value as Python sees it after `json.loads`. -/
inductive PyVal where
  | pynone
  | pybool (b : Bool)
  | pynum (q : ℚ)
  | pystr (s : String)
  | pyarr (l : List PyVal)
  | pyobj (fields : List (String × PyVal))

/-- The Python exceptions the wrapper can meet. -/
inductive PyExc where
  | attributeError (msg : String)
  | typeError (msg : String)
  | valueError (msg : String)
  | indexError (msg : String)
  | unboundLocalError (msg : String)
deriving DecidableEq

def PyExc.msg : PyExc → String
  | .attributeError m => m
  | .typeError m => m
  | .valueError m => m
  | .indexError m => m
  | .unboundLocalError m => m

/-- Coarse `str()` of a value, used only inside error messages. -/
def pyShow : PyVal → String
  | .pynone => "None"
  | .pybool true => "True"
  | .pybool false => "False"
  | .pynum q => toString q
  | .pystr s => s
  | .pyarr _ => "[list]"
  | .pyobj _ => "[dict]"

/-- Python `v.get(key, default)`: raises `AttributeError` unless `v` is a dict. -/
def pyGet (v : PyVal) (key : String) (dflt : PyVal) : Except PyExc PyVal :=
  match v with
  | .pyobj fields => .ok ((fields.lookup key).getD dflt)
  | _ => .error (.attributeError "object has no attribute get")

/-- Python `len(v)`: only sized values; `TypeError` otherwise. -/
def pyLen (v : PyVal) : Except PyExc ℕ :=
  match v with
  | .pyarr l => .ok l.length
  | .pystr s => .ok s.length
  | .pyobj fields => .ok fields.length
  | _ => .error (.typeError "object has no len")

/-- Python `v[i]` on a list. -/
def pyIndex (v : PyVal) (i : ℕ) : Except PyExc PyVal :=
  match v with
  | .pyarr l =>
      match l.get? i with
      | some x => .ok x
      | none => .error (.indexError "list index out of range")
  | _ => .error (.typeError "object is not subscriptable")

/-- Python `float(v)` (numeric-string parsing is not modelled; no theorem below
depends on it). -/
def pyFloat (v : PyVal) : Except PyExc ℚ :=
  match v with
  | .pynum q => .ok q
  | .pybool b => .ok (if b then 1 else 0)
  | _ => .error (.typeError "float() argument is invalid")

/-- Python `int(v)` (truncation toward zero). -/
def pyInt (v : PyVal) : Except PyExc Int :=
  match v with
  | .pynum q => .ok (q.num.tdiv (q.den : Int))
  | .pybool b => .ok (if b then 1 else 0)
  | _ => .error (.typeError "int() argument is invalid")

/-- Python `params[0] if len(params) > 0 else dflt`. -/
def firstParamOr (params : PyVal) (dflt : PyVal) : Except PyExc PyVal := do
  let n ← pyLen params
  if 0 < n then pyIndex params 0 else pure dflt

/-- The dispatch ladder of `handle_request` (the `if request_type == ...`
chain), with the parameter extraction of each branch. -/
def routeRequest (exec : String → List PyVal → Except PyExc PyVal)
    (request_type : PyVal) (params : PyVal) : Except PyExc PyVal :=
  match request_type with
  | .pystr "summary" => exec "summary" []
  | .pystr "carrier_summary" => exec "carrier_summary" []
  | .pystr "carrier_zone_summary" => exec "carrier_zone_summary" []
  | .pystr "carrier_zone_summary_percentile" => do
      let n ← pyLen params
      let percentile ← if 0 < n then do pyFloat (← pyIndex params 0) else pure 50
      let method ← if 1 < n then pyIndex params 1 else pure (.pystr "median")
      exec "carrier_zone_summary_percentile" [.pynum percentile, method]
  | .pystr "temporal_patterns" => exec "temporal_patterns" []
  | .pystr "geographic_intelligence" => exec "geographic_intelligence" []
  | .pystr "package_analytics" => exec "package_analytics" []
  | .pystr "performance_benchmarking" => exec "performance_benchmarking" []
  | .pystr "customer_segmentation" => exec "customer_segmentation" []
  | .pystr "anomaly_detection" => exec "anomaly_detection" []
  | .pystr "predictive_insights" => exec "predictive_insights" []
  | .pystr "comprehensive_report" => exec "comprehensive_report" []
  | .pystr "distributions" => do
      let _ ← firstParamOr params (.pyobj [])
      exec "distributions" []
  | .pystr "compare_2sigma" => do
      let _ ← firstParamOr params (.pyobj [])
      exec "compare_2sigma" []
  | .pystr "compare_carriers" => do
      let _ ← firstParamOr params (.pyobj [])
      exec "compare_carriers" []
  | .pystr "percentile_analysis" => do
      let qp ← firstParamOr params (.pyobj [])
      let percentile ← do pyFloat (← pyGet qp "percentile" (.pynum 80))
      let method ← pyGet qp "method" (.pystr "median")
      exec "percentile_analysis" [.pynum percentile, method]
  | .pystr "histogram" => do
      let qp ← firstParamOr params (.pyobj [])
      let service_level ← pyGet qp "service_level" (.pystr "PRIORITY")
      let zone ← do pyInt (← pyGet qp "zone" (.pynum 5))
      let metric ← pyGet qp "metric" (.pystr "transit_time_days")
      let bins ← do pyInt (← pyGet qp "bins" (.pynum 30))
      exec "histogram" [service_level, .pynum zone, metric, .pynum bins]
  | t => .error (.valueError ("Unknown request type: " ++ pyShow t))

/-- A response line written to stdout.  The JSON-decode error response
carries no request id (the source builds it without one). -/
structure ServiceResponse where
  success : Bool
  data : Option PyVal
  error : Option String
  request_id : Option PyVal

/-- Model of `handle_request(request_data)`.  In the source, `request_id` is only
assigned after `request_data.get("type")` succeeds; when `request_data` is
not a dict that call raises `AttributeError`, and the first statement of the
`except` block then references the unbound `request_id`, raising
`UnboundLocalError` out of the function.  For a dict request everything
the body raises is converted to the structured error response. -/
def handle_request (exec : String → List PyVal → Except PyExc PyVal)
    (request_data : PyVal) : Except PyExc ServiceResponse :=
  match request_data with
  | .pyobj fields =>
      let request_type := (fields.lookup "type").getD .pynone
      let params := (fields.lookup "params").getD (.pyarr [])
      let request_id := (fields.lookup "id").getD (.pystr "unknown")
      match routeRequest exec request_type params with
      | .ok result =>
          .ok { success := true, data := some result, error := none
                request_id := some request_id }
      | .error e =>
          .ok { success := false, data := none, error := some e.msg
                request_id := some request_id }
  | _ =>
      .error (.unboundLocalError
        "cannot access local variable request id where it is not associated with a value")

/-- How the `run` loop ends: end of input, or `sys.exit(code)`. -/
inductive LoopExit where
  | eof
  | exited (code : ℕ)
deriving DecidableEq

/-- The `run` loop over already-split stdin lines: `none` stands for a line
`json.loads` rejects (handled by the inner `except json.JSONDecodeError`,
which emits an id-less error response and continues); any exception
escaping `handle_request` is only caught by the outer `except Exception`,
which calls `sys.exit(1)`. -/
def serviceRun (exec : String → List PyVal → Except PyExc PyVal) :
    List (Option PyVal) → List ServiceResponse × LoopExit
  | [] => ([], .eof)
  | line :: rest =>
      match line with
      | none =>
          let out := serviceRun exec rest
          ({ success := false, data := none, error := some "Invalid JSON"
             request_id := none } :: out.1, out.2)
      | some rd =>
          match handle_request exec rd with
          | .ok resp =>
              let out := serviceRun exec rest
              (resp :: out.1, out.2)
          | .error _ => ([], .exited 1)

/-! ### Proof-layer definitions and concrete instances used by the
claims below -/

/-- Position of `x` in bin-width units from the left edge. -/
def tval (f l : ℚ) (b : ℕ) (x : ℚ) : ℚ := (x - f) / ((l - f) / (b : ℚ))

/-- The unique bin index of `x`: floor of its position, clamped to the last
bin. -/
def binIdx (f l : ℚ) (b : ℕ) (x : ℚ) : ℕ :=
  min (b - 1) (Int.floor (tval f l b x)).toNat

/-- Tiny two-record dataset used to instantiate the percentile claims. -/
def demoA : Analyzer :=
  { df := [⟨"ACME", "A", 1, 2, 10⟩, ⟨"ACME", "A", 1, 3, 12⟩]
    metadata := { service_levels := ["A"], usps_zones := [1] } }

/-- Three identical records: the degenerate histogram input. -/
def histDemo : Analyzer :=
  { df := [⟨"ACME", "A", 1, 4, 7⟩, ⟨"ACME", "A", 1, 4, 7⟩, ⟨"ACME", "A", 1, 4, 7⟩]
    metadata := { service_levels := ["A"], usps_zones := [1] } }

/-- One single-record segment. -/
def singleCfg : Analyzer :=
  { df := [⟨"ACME", "A", 1, 4, 9⟩]
    metadata := { service_levels := ["A"], usps_zones := [1] } }

/-- The NaN-valued stats row the single-record segment produces. -/
def singleNaNStats : Sigma2Stats :=
  { mean := 4, std := none, lower_2sigma := none, upper_2sigma := none
    range_2sigma := none, ci95_low := none, ci95_high := none }

/-- Two three-record service levels tied on their 2-sigma upper bounds. -/
def sigma2TieCfg : Analyzer :=
  { df := [⟨"ACME", "A", 1, 5, 9⟩, ⟨"ACME", "A", 1, 5, 9⟩, ⟨"ACME", "A", 1, 5, 9⟩,
           ⟨"ACME", "B", 1, 5, 9⟩, ⟨"ACME", "B", 1, 5, 9⟩, ⟨"ACME", "B", 1, 5, 9⟩]
    metadata := { service_levels := ["A", "B"], usps_zones := [1] } }

/-- Zone in which the catalog-first service level has exactly one record
(NaN bounds) while the second has three records with bound 5. -/
def sigma2NaNCfg : Analyzer :=
  { df := [⟨"ACME", "A", 1, 10, 9⟩,
           ⟨"ACME", "B", 1, 5, 9⟩, ⟨"ACME", "B", 1, 5, 9⟩, ⟨"ACME", "B", 1, 5, 9⟩]
    metadata := { service_levels := ["A", "B"], usps_zones := [1] } }

/-- The claim C3 property at one zone: the upper bound of the winner is a
value that is at most the upper bound of every listed service level. -/
def Claim3At (sq : ℚ → ℚ) (a : Analyzer) (zone : Int) : Prop :=
  ∀ w, (sigma2ZoneOf sq a zone).winner = some w →
    ∀ e ∈ (sigma2ZoneOf sq a zone).services,
      ∃ u v, w.transit_time_upper = some u ∧ e.2.upper_2sigma = some v ∧ u ≤ v

/-- A 5001-record segment: 5000 zeros and one 1.  Over the 5000-record
cap, so `Series.sample` must drop one row. -/
def c8data : List ℚ := List.replicate 5000 0 ++ [1]

/-- The carrier list `compare_carriers_by_zone` iterates in one zone. -/
def zoneCarriers (a : Analyzer) (zone : Int) : List String :=
  uniqueFirst ((a.df.filter (fun r => r.dest_zone = zone)).map (fun r => r.carrier))

/-- One zone, one service level: carrier "X" with only 3 records, carrier
"Y" with 6. -/
def lowSampleCfg : Analyzer :=
  { df := [⟨"X", "S", 1, 3, 10⟩, ⟨"X", "S", 1, 3, 10⟩, ⟨"X", "S", 1, 3, 10⟩,
           ⟨"Y", "S", 1, 7, 10⟩, ⟨"Y", "S", 1, 7, 10⟩, ⟨"Y", "S", 1, 7, 10⟩,
           ⟨"Y", "S", 1, 7, 10⟩, ⟨"Y", "S", 1, 7, 10⟩, ⟨"Y", "S", 1, 7, 10⟩]
    metadata := { service_levels := ["S"], usps_zones := [1] } }

/-- Two zones, one service level "S", three carriers with six records
each.  Medians: zone 1 — UPS 5, DHL 6, FedEx 7; zone 2 — FedEx 5, DHL 6,
UPS 7.  The tiny spread of DHL (std 1/5) gives it the best median/reliability
ratio in both zones, so it is the overall winner in both while winning no
per-service median comparison. -/
def overallCfg : Analyzer :=
  { df := [⟨"UPS", "S", 1, 6, 10⟩, ⟨"UPS", "S", 1, 4, 10⟩, ⟨"UPS", "S", 1, 8, 10⟩,
           ⟨"UPS", "S", 1, 2, 10⟩, ⟨"UPS", "S", 1, 5, 10⟩, ⟨"UPS", "S", 1, 5, 10⟩,
           ⟨"DHL", "S", 1, 61/10, 10⟩, ⟨"DHL", "S", 1, 59/10, 10⟩, ⟨"DHL", "S", 1, 63/10, 10⟩,
           ⟨"DHL", "S", 1, 57/10, 10⟩, ⟨"DHL", "S", 1, 6, 10⟩, ⟨"DHL", "S", 1, 6, 10⟩,
           ⟨"FedEx", "S", 1, 8, 10⟩, ⟨"FedEx", "S", 1, 6, 10⟩, ⟨"FedEx", "S", 1, 10, 10⟩,
           ⟨"FedEx", "S", 1, 4, 10⟩, ⟨"FedEx", "S", 1, 7, 10⟩, ⟨"FedEx", "S", 1, 7, 10⟩,
           ⟨"FedEx", "S", 2, 6, 10⟩, ⟨"FedEx", "S", 2, 4, 10⟩, ⟨"FedEx", "S", 2, 8, 10⟩,
           ⟨"FedEx", "S", 2, 2, 10⟩, ⟨"FedEx", "S", 2, 5, 10⟩, ⟨"FedEx", "S", 2, 5, 10⟩,
           ⟨"DHL", "S", 2, 61/10, 10⟩, ⟨"DHL", "S", 2, 59/10, 10⟩, ⟨"DHL", "S", 2, 63/10, 10⟩,
           ⟨"DHL", "S", 2, 57/10, 10⟩, ⟨"DHL", "S", 2, 6, 10⟩, ⟨"DHL", "S", 2, 6, 10⟩,
           ⟨"UPS", "S", 2, 8, 10⟩, ⟨"UPS", "S", 2, 6, 10⟩, ⟨"UPS", "S", 2, 10, 10⟩,
           ⟨"UPS", "S", 2, 4, 10⟩, ⟨"UPS", "S", 2, 7, 10⟩, ⟨"UPS", "S", 2, 7, 10⟩]
    metadata := { service_levels := ["S"], usps_zones := [1, 2] } }

/-! ### Lemmas about the sorted column -/

lemma sortQ_sorted (l : List ℚ) : (sortQ l).Sorted (· ≤ ·) :=
  List.sorted_insertionSort _ l

lemma sortQ_perm (l : List ℚ) : (sortQ l).Perm l :=
  List.perm_insertionSort _ l

lemma sortQ_length (l : List ℚ) : (sortQ l).length = l.length :=
  (sortQ_perm l).length_eq

lemma sortQ_mem {l : List ℚ} {x : ℚ} : x ∈ sortQ l ↔ x ∈ l :=
  (sortQ_perm l).mem_iff

lemma sortQ_getD_mem (l : List ℚ) (i : ℕ) (h : i < l.length) :
    (sortQ l).getD i 0 ∈ l := by
  have h' : i < (sortQ l).length := by rw [sortQ_length]; exact h
  rw [List.getD_eq_getElem _ _ h']
  exact sortQ_mem.mp (List.getElem_mem h')

lemma sortQ_getD_mono (l : List ℚ) {i j : ℕ} (hij : i ≤ j) (hj : j < l.length) :
    (sortQ l).getD i 0 ≤ (sortQ l).getD j 0 := by
  have hj' : j < (sortQ l).length := by rw [sortQ_length]; exact hj
  have hi' : i < (sortQ l).length := lt_of_le_of_lt hij hj'
  rw [List.getD_eq_getElem _ _ hi', List.getD_eq_getElem _ _ hj']
  exact List.Sorted.rel_get_of_le (sortQ_sorted l) (a := ⟨i, hi'⟩) (b := ⟨j, hj'⟩) hij

lemma pdMin_le {l : List ℚ} {x : ℚ} (hx : x ∈ l) : pdMin l ≤ x := by
  obtain ⟨k, hk⟩ := List.mem_iff_get.mp (sortQ_mem.mpr hx)
  have hkl : (k : ℕ) < l.length := lt_of_lt_of_eq k.isLt (sortQ_length l)
  have h := sortQ_getD_mono l (Nat.zero_le (k : ℕ)) hkl
  have hgk : (sortQ l).getD (k : ℕ) 0 = x := by
    rw [List.getD_eq_getElem _ _ k.isLt, ← List.get_eq_getElem]
    exact hk
  unfold pdMin
  rw [← hgk]
  exact h

lemma le_pdMax {l : List ℚ} {x : ℚ} (hx : x ∈ l) : x ≤ pdMax l := by
  obtain ⟨k, hk⟩ := List.mem_iff_get.mp (sortQ_mem.mpr hx)
  have hkl : (k : ℕ) < l.length := lt_of_lt_of_eq k.isLt (sortQ_length l)
  have h := sortQ_getD_mono l (show (k : ℕ) ≤ l.length - 1 by omega) (by omega)
  have hgk : (sortQ l).getD (k : ℕ) 0 = x := by
    rw [List.getD_eq_getElem _ _ k.isLt, ← List.get_eq_getElem]
    exact hk
  unfold pdMax
  rw [← hgk]
  exact h

lemma pdMin_mem {l : List ℚ} (hl : l ≠ []) : pdMin l ∈ l :=
  sortQ_getD_mem l 0 (List.length_pos.mpr hl)

lemma pdMax_mem {l : List ℚ} (hl : l ≠ []) : pdMax l ∈ l := by
  have := List.length_pos.mpr hl
  exact sortQ_getD_mem l (l.length - 1) (by omega)

/-! ### Lemmas about the Python min/max scans -/

lemma pickMin_step {α : Type} (blt : α → α → Bool) (b y : α) (t : List α) :
    pickMin blt b (y :: t) = pickMin blt (if blt y b then y else b) t := by
  unfold pickMin
  rw [List.foldl_cons]

lemma pickMin_mem {α : Type} (blt : α → α → Bool) (l : List α) (b : α) :
    pickMin blt b l ∈ b :: l := by
  induction l generalizing b with
  | nil => simp [pickMin]
  | cons y t ih =>
      rw [pickMin_step]
      rcases List.mem_cons.mp (ih (if blt y b then y else b)) with h | h
      · rw [h]
        by_cases hb : blt y b = true
        · simp [hb]
        · simp [hb]
      · exact List.mem_cons.mpr (Or.inr (List.mem_cons.mpr (Or.inr h)))

/-- The first-optimum scan: its result splits the scanned list into a
strictly-worse prefix, itself, and a no-better suffix. -/
lemma pickMin_spec {α : Type} (blt : α → α → Bool) (k : α → ℚ) (l : List α) (b : α)
    (hblt : ∀ x ∈ b :: l, ∀ y ∈ b :: l, blt x y = decide (k x < k y)) :
    ∃ l₁ l₂, b :: l = l₁ ++ pickMin blt b l :: l₂ ∧
      (∀ x ∈ l₁, k (pickMin blt b l) < k x) ∧
      ∀ x ∈ b :: l, k (pickMin blt b l) ≤ k x := by
  induction l generalizing b with
  | nil => exact ⟨[], [], rfl, by simp, by simp [pickMin]⟩
  | cons y t ih =>
      have hyb : blt y b = decide (k y < k b) :=
        hblt y (by simp) b (by simp)
      by_cases hlt : k y < k b
      · -- the head is replaced by y
        have hstep : pickMin blt b (y :: t) = pickMin blt y t := by
          rw [pickMin_step, hyb]
          simp [hlt]
        have hsub : ∀ x ∈ y :: t, ∀ z ∈ y :: t, blt x z = decide (k x < k z) := by
          intro x hx z hz
          exact hblt x (by rcases List.mem_cons.mp hx with h | h <;> simp [h])
            z (by rcases List.mem_cons.mp hz with h | h <;> simp [h])
        obtain ⟨l₁, l₂, hdec, hstrict, hmin⟩ := ih y hsub
        rw [← hstep] at hdec hstrict hmin
        set m := pickMin blt b (y :: t) with hmdef
        have hm_le_y : k m ≤ k y := hmin y (by simp)
        cases l₁ with
        | nil =>
            rw [List.nil_append] at hdec
            injection hdec with h1 h2
            refine ⟨[b], l₂, ?_, ?_, ?_⟩
            · rw [List.singleton_append, h1, h2]
            · intro x hx
              rcases List.mem_singleton.mp hx with rfl
              exact lt_of_le_of_lt hm_le_y hlt
            · intro x hx
              rcases List.mem_cons.mp hx with rfl | hx
              · exact le_of_lt (lt_of_le_of_lt hm_le_y hlt)
              · exact hmin x hx
        | cons c cs =>
            rw [List.cons_append] at hdec
            injection hdec with h1 h2
            refine ⟨b :: y :: cs, l₂, ?_, ?_, ?_⟩
            · rw [List.cons_append, List.cons_append, h2]
            · intro x hx
              rcases List.mem_cons.mp hx with rfl | hx
              · exact lt_of_le_of_lt hm_le_y hlt
              · rcases List.mem_cons.mp hx with rfl | hx
                · exact hstrict x (h1 ▸ List.mem_cons_self _ _)
                · exact hstrict x (List.mem_cons.mpr (Or.inr hx))
            · intro x hx
              rcases List.mem_cons.mp hx with rfl | hx
              · exact le_of_lt (lt_of_le_of_lt hm_le_y hlt)
              · exact hmin x hx
      · -- the head survives
        have hstep : pickMin blt b (y :: t) = pickMin blt b t := by
          rw [pickMin_step, hyb]
          simp [hlt]
        have hsub : ∀ x ∈ b :: t, ∀ z ∈ b :: t, blt x z = decide (k x < k z) := by
          intro x hx z hz
          exact hblt x (by rcases List.mem_cons.mp hx with h | h <;> simp [h])
            z (by rcases List.mem_cons.mp hz with h | h <;> simp [h])
        obtain ⟨l₁, l₂, hdec, hstrict, hmin⟩ := ih b hsub
        rw [← hstep] at hdec hstrict hmin
        set m := pickMin blt b (y :: t) with hmdef
        have hm_le_b : k m ≤ k b := hmin b (by simp)
        have hm_le_y : k m ≤ k y :=
          le_trans hm_le_b (not_lt.mp hlt)
        cases l₁ with
        | nil =>
            rw [List.nil_append] at hdec
            injection hdec with h1 h2
            refine ⟨[], y :: l₂, ?_, by simp, ?_⟩
            · rw [List.nil_append, ← h1, ← h2]
            · intro x hx
              rcases List.mem_cons.mp hx with rfl | hx
              · exact hm_le_b
              · rcases List.mem_cons.mp hx with rfl | hx
                · exact hm_le_y
                · exact hmin x (List.mem_cons.mpr (Or.inr (h2 ▸ hx)))
        | cons c cs =>
            rw [List.cons_append] at hdec
            injection hdec with h1 h2
            refine ⟨b :: y :: cs, l₂, ?_, ?_, ?_⟩
            · rw [List.cons_append, List.cons_append, h2]
            · intro x hx
              rcases List.mem_cons.mp hx with rfl | hx
              · exact hstrict x (h1 ▸ List.mem_cons_self _ _)
              · rcases List.mem_cons.mp hx with rfl | hx
                · exact lt_of_lt_of_le (hstrict b (h1 ▸ List.mem_cons_self _ _))
                    (not_lt.mp hlt)
                · exact hstrict x (List.mem_cons.mpr (Or.inr hx))
            · intro x hx
              rcases List.mem_cons.mp hx with rfl | hx
              · exact hm_le_b
              · rcases List.mem_cons.mp hx with rfl | hx
                · exact hm_le_y
                · exact hmin x (List.mem_cons.mpr (Or.inr (h2 ▸ hx)))

/-- NaN-free `pyMinBy`: the winner is first among the minima of the keys. -/
lemma pyMinBy_spec {α : Type} (key : α → Option ℚ) (l : List α) (m : α)
    (hm : pyMinBy key l = some m)
    (hall : ∀ x ∈ l, (key x).isSome) :
    ∃ l₁ l₂, l = l₁ ++ m :: l₂ ∧
      (∀ x ∈ l₁, (key m).getD 0 < (key x).getD 0) ∧
      ∀ x ∈ l, (key m).getD 0 ≤ (key x).getD 0 := by
  match l, hm with
  | x :: xs, hm =>
      have hm' : pickMin (fun a b => pyLt (key a) (key b)) x xs = m := by
        simpa [pyMinBy] using hm
      have hblt : ∀ p ∈ x :: xs, ∀ q ∈ x :: xs,
          pyLt (key p) (key q) = decide ((key p).getD 0 < (key q).getD 0) := by
        intro p hp q hq
        obtain ⟨u, hu⟩ := Option.isSome_iff_exists.mp (hall p hp)
        obtain ⟨v, hv⟩ := Option.isSome_iff_exists.mp (hall q hq)
        rw [hu, hv]
        simp [pyLt]
      obtain ⟨l₁, l₂, hdec, hstrict, hmin⟩ :=
        pickMin_spec (fun a b => pyLt (key a) (key b)) (fun a => (key a).getD 0) xs x hblt
      rw [hm'] at hdec hstrict hmin
      exact ⟨l₁, l₂, hdec, hstrict, hmin⟩

/-- Lemma: `pyMinBy` only returns members of the list. -/
lemma pyMinBy_mem {α : Type} (key : α → Option ℚ) (l : List α) (m : α)
    (hm : pyMinBy key l = some m) : m ∈ l := by
  match l, hm with
  | x :: xs, hm =>
      have hm' : pickMin (fun a b => pyLt (key a) (key b)) x xs = m := by
        simpa [pyMinBy] using hm
      rw [← hm']
      exact pickMin_mem _ xs x

lemma pyMinBy_isSome {α : Type} (key : α → Option ℚ) (l : List α) (hl : l ≠ []) :
    (pyMinBy key l).isSome := by
  match l, hl with
  | x :: xs, _ => simp [pyMinBy]

/-- Lemma: `pyMaxBy` returns the first among the maxima of the keys. -/
lemma pyMaxBy_spec {α : Type} (key : α → ℕ) (l : List α) (m : α)
    (hm : pyMaxBy key l = some m) :
    ∃ l₁ l₂, l = l₁ ++ m :: l₂ ∧
      (∀ x ∈ l₁, key x < key m) ∧
      ∀ x ∈ l, key x ≤ key m := by
  match l, hm with
  | x :: xs, hm =>
      have hm' : pickMin (fun a b => decide (key b < key a)) x xs = m := by
        simpa [pyMaxBy] using hm
      have hblt : ∀ p ∈ x :: xs, ∀ q ∈ x :: xs,
          decide (key q < key p) = decide ((-(key p : ℚ)) < -(key q : ℚ)) := by
        intro p _ q _
        apply decide_eq_decide.mpr
        rw [neg_lt_neg_iff]
        exact_mod_cast Iff.rfl
      obtain ⟨l₁, l₂, hdec, hstrict, hmin⟩ :=
        pickMin_spec (fun a b => decide (key b < key a)) (fun a => -(key a : ℚ)) xs x hblt
      rw [hm'] at hdec hstrict hmin
      refine ⟨l₁, l₂, hdec, ?_, ?_⟩
      · intro z hz
        have := hstrict z hz
        rw [neg_lt_neg_iff] at this
        exact_mod_cast this
      · intro z hz
        have := hmin z hz
        rw [neg_le_neg_iff] at this
        exact_mod_cast this

/-! ### Lemmas about quantiles -/

/-- Lemma: `quantile(1.0)` is the maximum of the column. -/
lemma quantileQ_one {l : List ℚ} (hl : l ≠ []) : quantileQ l 1 = pdMax l := by
  have hn : 1 ≤ l.length := List.length_pos.mpr hl
  have hcast : qIndex l 1 = ((l.length - 1 : ℕ) : ℚ) := by
    unfold qIndex
    rw [one_mul]
    push_cast [hn]
    ring
  unfold quantileQ qLo qHi pdMax
  rw [hcast, Int.floor_natCast, Int.ceil_natCast, Int.toNat_natCast]
  ring

/-- For `0 ≤ q ≤ 1` the interpolated quantile is at least the column
minimum (so the percentile filter always keeps the minimal record). -/
lemma qIndex_nonneg {l : List ℚ} (hl : l ≠ []) {q : ℚ} (h0 : 0 ≤ q) :
    0 ≤ qIndex l q := by
  have hn : 1 ≤ l.length := List.length_pos.mpr hl
  have hnn : (1 : ℚ) ≤ (l.length : ℚ) := by exact_mod_cast hn
  exact mul_nonneg h0 (by linarith)

lemma qIndex_le {l : List ℚ} (hl : l ≠ []) {q : ℚ} (h0 : 0 ≤ q) (h1 : q ≤ 1) :
    qIndex l q ≤ (l.length : ℚ) - 1 := by
  have hn : 1 ≤ l.length := List.length_pos.mpr hl
  have hnn : (1 : ℚ) ≤ (l.length : ℚ) := by exact_mod_cast hn
  calc qIndex l q = q * ((l.length : ℚ) - 1) := rfl
  _ ≤ 1 * ((l.length : ℚ) - 1) := mul_le_mul_of_nonneg_right h1 (by linarith)
  _ = (l.length : ℚ) - 1 := one_mul _

lemma qFloor_lt_length {l : List ℚ} (hl : l ≠ []) {q : ℚ} (h0 : 0 ≤ q) (h1 : q ≤ 1) :
    (Int.floor (qIndex l q)).toNat < l.length := by
  have hfl0 : 0 ≤ Int.floor (qIndex l q) := Int.le_floor.mpr (by
    exact_mod_cast qIndex_nonneg hl h0)
  have hicast : ((Int.floor (qIndex l q)).toNat : ℚ) = ((Int.floor (qIndex l q) : ℤ) : ℚ) := by
    exact_mod_cast congrArg (fun z : ℤ => (z : ℚ)) (Int.toNat_of_nonneg hfl0)
  have hile : ((Int.floor (qIndex l q)).toNat : ℚ) ≤ qIndex l q := by
    rw [hicast]; exact Int.floor_le _
  have : ((Int.floor (qIndex l q)).toNat : ℚ) < (l.length : ℚ) := by
    have := qIndex_le hl h0 h1
    linarith
  exact_mod_cast this

lemma qCeil_lt_length {l : List ℚ} (hl : l ≠ []) {q : ℚ} (h0 : 0 ≤ q) (h1 : q ≤ 1) :
    (Int.ceil (qIndex l q)).toNat < l.length := by
  have hn : 1 ≤ l.length := List.length_pos.mpr hl
  have hcl : Int.ceil (qIndex l q) ≤ (l.length : ℤ) - 1 := by
    apply Int.ceil_le.mpr
    push_cast
    exact qIndex_le hl h0 h1
  have hcl' : (Int.ceil (qIndex l q)).toNat ≤ ((l.length : ℤ) - 1).toNat :=
    Int.toNat_le_toNat hcl
  omega

lemma pdMin_le_quantileQ {l : List ℚ} (hl : l ≠ []) {q : ℚ}
    (h0 : 0 ≤ q) (h1 : q ≤ 1) : pdMin l ≤ quantileQ l q := by
  have hfl0 : 0 ≤ Int.floor (qIndex l q) := Int.le_floor.mpr (by
    exact_mod_cast qIndex_nonneg hl h0)
  have hicast : ((Int.floor (qIndex l q)).toNat : ℚ) = ((Int.floor (qIndex l q) : ℤ) : ℚ) := by
    exact_mod_cast congrArg (fun z : ℤ => (z : ℚ)) (Int.toNat_of_nonneg hfl0)
  have hile : ((Int.floor (qIndex l q)).toNat : ℚ) ≤ qIndex l q := by
    rw [hicast]; exact Int.floor_le _
  have hgam : qIndex l q - ((Int.floor (qIndex l q)).toNat : ℚ) < 1 := by
    rw [hicast]
    have := Int.lt_floor_add_one (qIndex l q)
    linarith
  have hlo : pdMin l ≤ qLo l q :=
    pdMin_le (sortQ_getD_mem l _ (qFloor_lt_length hl h0 h1))
  have hhi : pdMin l ≤ qHi l q :=
    pdMin_le (sortQ_getD_mem l _ (qCeil_lt_length hl h0 h1))
  unfold quantileQ
  set lo := qLo l q
  set hi := qHi l q
  set γ : ℚ := qIndex l q - ((Int.floor (qIndex l q)).toNat : ℚ) with hγ
  have hγ0 : 0 ≤ γ := by rw [hγ]; linarith
  have hγ1 : γ ≤ 1 := le_of_lt hgam
  have hre : lo + γ * (hi - lo) = (1 - γ) * lo + γ * hi := by ring
  rw [hre]
  calc pdMin l = (1 - γ) * pdMin l + γ * pdMin l := by ring
  _ ≤ (1 - γ) * lo + γ * hi := by
      apply add_le_add
      · exact mul_le_mul_of_nonneg_left hlo (by linarith)
      · exact mul_le_mul_of_nonneg_left hhi hγ0

/-! ### Lemmas about the histogram binning -/

lemma binWidth_pos {f l : ℚ} {b : ℕ} (hb : 0 < b) (hfl : f < l) :
    0 < (l - f) / (b : ℚ) := by
  apply div_pos (by linarith)
  exact_mod_cast hb

lemma histEdge_le_iff {f l : ℚ} {b : ℕ} (hb : 0 < b) (hfl : f < l) (j : ℕ) (x : ℚ) :
    histEdge f l b j ≤ x ↔ (j : ℚ) ≤ tval f l b x := by
  have hΔ := binWidth_pos hb hfl
  unfold histEdge tval
  rw [le_div_iff hΔ]
  constructor <;> intro h <;> linarith

lemma lt_histEdge_iff {f l : ℚ} {b : ℕ} (hb : 0 < b) (hfl : f < l) (j : ℕ) (x : ℚ) :
    x < histEdge f l b j ↔ tval f l b x < (j : ℚ) := by
  have hΔ := binWidth_pos hb hfl
  unfold histEdge tval
  rw [div_lt_iff hΔ]
  constructor <;> intro h <;> linarith

lemma histEdge_last {f l : ℚ} {b : ℕ} (hb : 0 < b) : histEdge f l b b = l := by
  have hbq : (b : ℚ) ≠ 0 := by
    have : (0 : ℚ) < (b : ℚ) := by exact_mod_cast hb
    exact ne_of_gt this
  unfold histEdge
  field_simp

lemma tval_nonneg {f l : ℚ} {b : ℕ} (hb : 0 < b) (hfl : f < l) {x : ℚ} (hx : f ≤ x) :
    0 ≤ tval f l b x :=
  div_nonneg (by linarith) (binWidth_pos hb hfl).le

lemma tval_le_b {f l : ℚ} {b : ℕ} (hb : 0 < b) (hfl : f < l) {x : ℚ} (hx : x ≤ l) :
    tval f l b x ≤ (b : ℚ) := by
  have hΔ := binWidth_pos hb hfl
  unfold tval
  rw [div_le_iff hΔ]
  have hbq : (b : ℚ) ≠ 0 := by
    have : (0 : ℚ) < (b : ℚ) := by exact_mod_cast hb
    exact ne_of_gt this
  have : (b : ℚ) * ((l - f) / (b : ℚ)) = l - f := by field_simp
  rw [this]
  linarith

/-- For `f ≤ x ≤ l`, bin `j < b` contains `x` exactly when `j` is the
canonical bin index of `x`. -/
lemma binPred_true_iff {f l : ℚ} {b : ℕ} (hb : 0 < b) (hfl : f < l)
    {x : ℚ} (hx1 : f ≤ x) (hx2 : x ≤ l) {j : ℕ} (hj : j < b) :
    binPred f l b j x = true ↔ j = binIdx f l b x := by
  have ht0 : 0 ≤ tval f l b x := tval_nonneg hb hfl hx1
  have htb : tval f l b x ≤ (b : ℚ) := tval_le_b hb hfl hx2
  have hk0 : 0 ≤ Int.floor (tval f l b x) := Int.le_floor.mpr (by exact_mod_cast ht0)
  have hkb : Int.floor (tval f l b x) ≤ (b : ℤ) := by
    have h1 : Int.floor (tval f l b x) ≤ Int.floor ((b : ℚ)) := Int.floor_le_floor htb
    rw [Int.floor_natCast] at h1
    exact h1
  by_cases hj1 : j + 1 < b
  · unfold binPred
    rw [if_pos hj1, decide_eq_true_eq]
    rw [histEdge_le_iff hb hfl, lt_histEdge_iff hb hfl]
    constructor
    · rintro ⟨hle, hlt⟩
      have hfe : Int.floor (tval f l b x) = (j : ℤ) := by
        rw [Int.floor_eq_iff]
        constructor
        · exact_mod_cast hle
        · push_cast
          push_cast at hlt
          linarith
      unfold binIdx
      omega
    · intro hj_eq
      unfold binIdx at hj_eq
      have hfe : Int.floor (tval f l b x) = (j : ℤ) := by omega
      have hbounds := Int.floor_eq_iff.mp hfe
      obtain ⟨hl1, hl2⟩ := hbounds
      constructor
      · exact_mod_cast hl1
      · push_cast
        push_cast at hl2
        linarith
  · have hj' : j = b - 1 := by omega
    unfold binPred
    rw [if_neg hj1, decide_eq_true_eq]
    rw [histEdge_le_iff hb hfl]
    have hlast : x ≤ histEdge f l b b := by
      rw [histEdge_last hb]
      exact hx2
    have hjq : (j : ℚ) = (b : ℚ) - 1 := by
      have : (1 : ℕ) ≤ b := hb
      push_cast [hj', this]
      ring
    constructor
    · rintro ⟨hle, _⟩
      have hge : (b : ℤ) - 1 ≤ Int.floor (tval f l b x) := by
        apply Int.le_floor.mpr
        push_cast
        rw [hjq] at hle
        linarith
      unfold binIdx
      omega
    · intro hj_eq
      refine ⟨?_, hlast⟩
      unfold binIdx at hj_eq
      have hge : (b : ℤ) - 1 ≤ Int.floor (tval f l b x) := by omega
      have hfloor_le := Int.floor_le (tval f l b x)
      rw [hjq]
      have h1 : (((b : ℤ) - 1) : ℚ) ≤ ((Int.floor (tval f l b x) : ℤ) : ℚ) := by
        exact_mod_cast hge
      have h3 : (((b : ℤ) - 1) : ℚ) ≤ tval f l b x := le_trans h1 hfloor_le
      push_cast at h3
      linarith

lemma sum_map_add {α : Type} (l : List α) (F G : α → ℕ) :
    (l.map (fun x => F x + G x)).sum = (l.map F).sum + (l.map G).sum := by
  induction l with
  | nil => simp
  | cons y t ih => simp [ih]; omega

lemma sum_ind_zero (b : ℕ) (p : ℕ → Bool) (hz : ∀ j < b, p j = false) :
    ((List.range b).map (fun j => if p j then 1 else 0)).sum = 0 := by
  induction b with
  | zero => simp
  | succ n ih =>
      rw [List.range_succ, List.map_append, List.sum_append]
      rw [ih (fun j hj => hz j (Nat.lt_succ_of_lt hj))]
      simp [hz n (Nat.lt_succ_self n)]

lemma sum_ind_one (b : ℕ) (p : ℕ → Bool) (J : ℕ) (hJ : J < b)
    (hiff : ∀ j < b, (p j = true ↔ j = J)) :
    ((List.range b).map (fun j => if p j then 1 else 0)).sum = 1 := by
  induction b with
  | zero => omega
  | succ n ih =>
      rw [List.range_succ, List.map_append, List.sum_append]
      by_cases hJn : J = n
      · have hz : ∀ j < n, p j = false := by
          intro j hj
          by_contra hc
          have : p j = true := by
            cases hpj : p j
            · exact absurd hpj hc
            · rfl
          have := (hiff j (Nat.lt_succ_of_lt hj)).mp this
          omega
        rw [sum_ind_zero n p hz]
        have hpn : p n = true := (hiff n (Nat.lt_succ_self n)).mpr hJn.symm
        simp [hpn]
      · have hJn' : J < n := by omega
        rw [ih hJn' (fun j hj => hiff j (Nat.lt_succ_of_lt hj))]
        have : p n = false := by
          cases hpn : p n
          · rfl
          · have := (hiff n (Nat.lt_succ_self n)).mp hpn
            omega
        simp [this]

/-- Every in-range value lands in exactly one bin. -/
lemma indicator_sum_one {f l : ℚ} {b : ℕ} (hb : 0 < b) (hfl : f < l)
    {x : ℚ} (hx1 : f ≤ x) (hx2 : x ≤ l) :
    ((List.range b).map (fun j => if binPred f l b j x then 1 else 0)).sum = 1 := by
  apply sum_ind_one b _ (binIdx f l b x)
  · unfold binIdx
    omega
  · intro j hj
    rw [binPred_true_iff hb hfl hx1 hx2 hj]

/-- The bin counts of `np.histogram` sum to the number of data points. -/
lemma histCounts_sum (data : List ℚ) (f l : ℚ) (b : ℕ) (hb : 0 < b) (hfl : f < l)
    (hdata : ∀ x ∈ data, f ≤ x ∧ x ≤ l) :
    (histCounts data f l b).sum = data.length := by
  induction data with
  | nil => simp [histCounts]
  | cons x d ih =>
      have hx := hdata x (List.mem_cons_self x d)
      have hcons : histCounts (x :: d) f l b =
          (List.range b).map (fun j =>
            d.countP (binPred f l b j) + if binPred f l b j x then 1 else 0) := by
        unfold histCounts
        apply List.map_congr_left
        intro j _
        rw [List.countP_cons]
      rw [hcons, sum_map_add]
      have hih := ih (fun y hy => hdata y (List.mem_cons_of_mem x hy))
      unfold histCounts at hih
      rw [hih, indicator_sum_one hb hfl hx.1 hx.2]
      simp

/-! ### Claim C4: percentile 100 keeps every record -/

/-- C4: for every zone and service level with at least one matching record,
`find_best_service_by_percentile` at percentile 100 reports
`percentile_coverage = 100`: the quantile threshold is the segment maximum,
so the filter excludes no record. -/
theorem percentile100_full_coverage (a : Analyzer) (zones : List Int) (method : String)
    (zone : Int) (service : String) (hz : zone ∈ zones)
    (hs : service ∈ a.metadata.service_levels)
    (hne : segment a service zone .transit_time_days ≠ []) :
    ∃ pz e, (zone, pz) ∈ find_best_service_by_percentile a 100 zones method ∧
      (service, e) ∈ pz.services ∧ e.percentile_coverage = 100 ∧
      e.records_in_percentile = e.total_records := by
  set data := segment a service zone .transit_time_days with hdata
  have hq : (100 : ℚ) / 100 = 1 := by norm_num
  have hthr : quantileQ data (100 / 100) = pdMax data := by
    rw [hq]; exact quantileQ_one hne
  have hfil : data.filter (fun x => x ≤ quantileQ data (100 / 100)) = data := by
    apply List.filter_eq_self.mpr
    intro x hx
    rw [hthr]
    exact decide_eq_true (le_pdMax hx)
  have hlen0 : ¬(data.length = 0) := fun hc => hne (List.length_eq_zero.mp hc)
  refine ⟨percentileZoneOf a 100 method zone,
    { metric_value := if method = "median" then medianQ data else meanQ data
      percentile_threshold := quantileQ data (100 / 100)
      records_in_percentile := data.length
      total_records := data.length
      percentile_coverage := (data.length : ℚ) / (data.length : ℚ) * 100
      method := method }, ?_, ?_, ?_, rfl⟩
  · exact List.mem_map_of_mem (fun z => (z, percentileZoneOf a 100 method z)) hz
  · apply List.mem_filterMap.mpr
    refine ⟨service, hs, ?_⟩
    simp only [percentileServiceEntry, ← hdata, if_neg hlen0, hfil]
  · have hne' : (data.length : ℚ) ≠ 0 := by
      exact_mod_cast hlen0
    rw [div_self hne', one_mul]

/-! ### Claim C10: the percentile filter never empties a non-empty segment -/

/-- C10: for any percentile in (0,100], the interpolated quantile threshold
is at least the segment minimum, so the filtered subset of a non-empty
segment is non-empty, the service level appears in the zone results, and
a winner exists; the empty-filtered-subset branch is unreachable. -/
theorem percentile_filter_keeps_min (a : Analyzer) (zones : List Int) (method : String)
    (p : ℚ) (zone : Int) (service : String)
    (hp0 : 0 < p) (hp1 : p ≤ 100) (hz : zone ∈ zones)
    (hs : service ∈ a.metadata.service_levels)
    (hne : segment a service zone .transit_time_days ≠ []) :
    ∃ pz e, (zone, pz) ∈ find_best_service_by_percentile a p zones method ∧
      (service, e) ∈ pz.services ∧ 0 < e.records_in_percentile ∧
      pdMin (segment a service zone .transit_time_days) ≤ e.percentile_threshold ∧
      pz.winner.isSome := by
  set data := segment a service zone .transit_time_days with hdata
  have hq0 : 0 ≤ p / 100 := by positivity
  have hq1 : p / 100 ≤ 1 := by linarith [div_le_one_of_le (by linarith : p ≤ 100) (by norm_num : (0:ℚ) ≤ 100)]
  have hthr : pdMin data ≤ quantileQ data (p / 100) := pdMin_le_quantileQ hne hq0 hq1
  have hminf : pdMin data ∈ data.filter (fun x => x ≤ quantileQ data (p / 100)) := by
    apply List.mem_filter.mpr
    exact ⟨pdMin_mem hne, decide_eq_true hthr⟩
  have hflen : ¬((data.filter (fun x => x ≤ quantileQ data (p / 100))).length = 0) := by
    intro hc
    rw [List.length_eq_zero.mp hc] at hminf
    exact absurd hminf (List.not_mem_nil _)
  have hlen0 : ¬(data.length = 0) := fun hc => hne (List.length_eq_zero.mp hc)
  have hentry : percentileServiceEntry a p method zone service = some (service,
      { metric_value := if method = "median"
          then medianQ (data.filter (fun x => x ≤ quantileQ data (p / 100)))
          else meanQ (data.filter (fun x => x ≤ quantileQ data (p / 100)))
        percentile_threshold := quantileQ data (p / 100)
        records_in_percentile := (data.filter (fun x => x ≤ quantileQ data (p / 100))).length
        total_records := data.length
        percentile_coverage :=
          ((data.filter (fun x => x ≤ quantileQ data (p / 100))).length : ℚ)
            / (data.length : ℚ) * 100
        method := method }) := by
    simp only [percentileServiceEntry, ← hdata, if_neg hlen0, if_neg hflen]
  have hmem := List.mem_filterMap.mpr ⟨service, hs, hentry⟩
  refine ⟨percentileZoneOf a p method zone, _, ?_, hmem, ?_, hthr, ?_⟩
  · exact List.mem_map_of_mem (fun z => (z, percentileZoneOf a p method z)) hz
  · exact Nat.pos_of_ne_zero hflen
  · have hservices : (percentileZoneOf a p method zone).services ≠ [] :=
      List.ne_nil_of_mem hmem
    have h1 := pyMinBy_isSome (fun e => some e.2.metric_value) _ hservices
    obtain ⟨w, hw⟩ := Option.isSome_iff_exists.mp h1
    have hwin : (percentileZoneOf a p method zone).winner =
        (pyMinBy (fun e => some e.2.metric_value)
          (percentileZoneOf a p method zone).services).map (fun w =>
            { service_level := w.1, metric_value := w.2.metric_value }) := rfl
    rw [hwin, hw]
    rfl

/-- Witness for C4 at a concrete dataset. -/
theorem percentile100_full_coverage_witness :
    ∃ pz e, (1, pz) ∈ find_best_service_by_percentile demoA 100 [1] "median" ∧
      ("A", e) ∈ pz.services ∧ e.percentile_coverage = 100 ∧
      e.records_in_percentile = e.total_records :=
  percentile100_full_coverage demoA [1] "median" 1 "A" (by decide) (by decide) (by decide)

/-- Witness for C10 at a concrete dataset. -/
theorem percentile_filter_keeps_min_witness :
    ∃ pz e, (1, pz) ∈ find_best_service_by_percentile demoA 80 [1] "median" ∧
      ("A", e) ∈ pz.services ∧ 0 < e.records_in_percentile ∧
      pdMin (segment demoA "A" 1 .transit_time_days) ≤ e.percentile_threshold ∧
      pz.winner.isSome :=
  percentile_filter_keeps_min demoA [1] "median" 80 1 "A" (by norm_num) (by norm_num)
    (by decide) (by decide) (by decide)

/-! ### Claim C6: histogram bin counts sum to the total count -/

lemma histRange_spec (data : List ℚ) (hne : data ≠ []) :
    (histRange data).1 < (histRange data).2 ∧
      ∀ x ∈ data, (histRange data).1 ≤ x ∧ x ≤ (histRange data).2 := by
  unfold histRange
  by_cases he : pdMin data = pdMax data
  · rw [if_pos he]
    constructor
    · have : pdMin data ≤ pdMax data := le_pdMax (pdMin_mem hne)
      simp only []
      linarith
    · intro x hx
      have h1 := pdMin_le hx
      have h2 := le_pdMax hx
      constructor
      · simp only []
        linarith
      · simp only []
        linarith
  · rw [if_neg he]
    have hle : pdMin data ≤ pdMax data := le_pdMax (pdMin_mem hne)
    exact ⟨lt_of_le_of_ne hle he, fun x hx => ⟨pdMin_le hx, le_pdMax hx⟩⟩

/-- C6: for every non-empty selection, the per-bin histogram counts sum
exactly to `total_count`. -/
theorem histogram_counts_sum_total (a : Analyzer) (sl : String) (zone : Int)
    (m : Metric) (bins : ℕ) (hb : 0 < bins)
    (hne : segment a sl zone m ≠ []) :
    ∃ h, get_histogram_data a sl zone m bins = some h ∧
      h.counts.sum = h.total_count := by
  have hlen : ¬((segment a sl zone m).length = 0) :=
    fun hc => hne (List.length_eq_zero.mp hc)
  obtain ⟨hfl, hbounds⟩ := histRange_spec _ hne
  simp only [get_histogram_data, if_neg hlen]
  exact ⟨_, rfl, histCounts_sum _ _ _ _ hb hfl hbounds⟩

/-- Witness for C6 at a concrete dataset. -/
theorem histogram_counts_sum_total_witness :
    ∃ h, get_histogram_data demoA "A" 1 .transit_time_days 30 = some h ∧
      h.counts.sum = h.total_count :=
  histogram_counts_sum_total demoA "A" 1 .transit_time_days 30 (by decide) (by decide)

/-! ### Claim C7: degenerate single-value selections (corrected) -/

/-- C7 counterexample: on a selection whose records all share the value 4,
`get_histogram_data` with the default 30 bins returns 30 bins of width
1/30 — not one bin of width 0 (numpy expands the degenerate range to
`[3.5, 4.5]`). -/
theorem histogram_degenerate_counterexample :
    (get_histogram_data histDemo "A" 1 .transit_time_days 30).map
        (fun h => (h.counts.length, h.bin_width)) = some (30, 1/30) ∧
      (30 : ℕ) ≠ 1 ∧ (1/30 : ℚ) ≠ 0 := by
  refine ⟨by decide, by decide, by decide⟩

/-- C7 amended: a non-empty selection whose records all share one value
yields `bins` bins (not one), each of width `1/bins` (not 0), spanning the
expanded range `[v − 0.5, v + 0.5]`. -/
theorem histogram_degenerate_bins (a : Analyzer) (sl : String) (zone : Int)
    (m : Metric) (bins : ℕ) (hb : 0 < bins)
    (hne : segment a sl zone m ≠ [])
    (hconst : ∀ x ∈ segment a sl zone m, ∀ y ∈ segment a sl zone m, x = y) :
    ∃ h, get_histogram_data a sl zone m bins = some h ∧
      h.counts.length = bins ∧ h.bins.length = bins ∧
      h.bin_width = 1 / (bins : ℚ) := by
  have hlen : ¬((segment a sl zone m).length = 0) :=
    fun hc => hne (List.length_eq_zero.mp hc)
  have hmm : pdMin (segment a sl zone m) = pdMax (segment a sl zone m) :=
    hconst _ (pdMin_mem hne) _ (pdMax_mem hne)
  have hr : histRange (segment a sl zone m) =
      (pdMax (segment a sl zone m) - 1/2, pdMax (segment a sl zone m) + 1/2) := by
    unfold histRange
    rw [if_pos hmm, hmm]
  simp only [get_histogram_data, if_neg hlen]
  refine ⟨_, rfl, ?_, ?_, ?_⟩
  · simp [histCounts]
  · simp
  · show histEdge (histRange (segment a sl zone m)).1 (histRange (segment a sl zone m)).2 bins 1
        - histEdge (histRange (segment a sl zone m)).1 (histRange (segment a sl zone m)).2 bins 0
        = 1 / (bins : ℚ)
    rw [hr]
    unfold histEdge
    push_cast
    ring

/-- Witness for the amended C7 at a concrete dataset. -/
theorem histogram_degenerate_bins_witness :
    ∃ h, get_histogram_data histDemo "A" 1 .transit_time_days 30 = some h ∧
      h.counts.length = 30 ∧ h.bins.length = 30 ∧
      h.bin_width = 1 / (30 : ℚ) :=
  histogram_degenerate_bins histDemo "A" 1 .transit_time_days 30 (by decide)
    (by decide) (by decide)

/-! ### Claim C1: segments with exactly one record (corrected) -/

/-- C1 amended: on a one-record segment, `get_distribution_stats` raises
the Shapiro–Wilk length `ValueError` (the test needs at least 3
observations) rather than reporting statistics, and in
`compare_service_levels_2sigma` the pandas `ddof = 1` standard deviation is
NaN, so the 2-sigma bounds and range are NaN — they do not collapse to the
single value.  (No reliability score exists for such a segment: those are
only computed in the carrier comparison, which demands more than 5
records.) -/
theorem single_record_stats (sq : ℚ → ℚ) (shap : List ℚ → ℚ × ℚ) (choice : List ℕ)
    (a : Analyzer) (sl : String) (zone : Int) (m : Metric) (zones : List Int)
    (h1 : (segment a sl zone m).length = 1)
    (h2 : (segment a sl zone .transit_time_days).length = 1)
    (hz : zone ∈ zones) (hsl : sl ∈ a.metadata.service_levels) :
    get_distribution_stats sq shap choice a sl zone m = .error shapiroLenMsg ∧
    ∃ zc st, (zone, zc) ∈ compare_service_levels_2sigma sq a zones ∧
      (sl, st) ∈ zc.services ∧ st.std = none ∧ st.lower_2sigma = none ∧
      st.upper_2sigma = none ∧ st.range_2sigma = none := by
  constructor
  · simp [get_distribution_stats, h1]
  · refine ⟨sigma2ZoneOf sq a zone,
      sigma2StatsOf sq (segment a sl zone .transit_time_days),
      List.mem_map_of_mem _ hz, ?_, ?_, ?_, ?_, ?_⟩
    · apply List.mem_filterMap.mpr
      refine ⟨sl, hsl, ?_⟩
      simp [sigma2Entry, h2]
    · show sampleStd sq (segment a sl zone .transit_time_days) = none
      simp [sampleStd, sampleVar, h2]
    · show (sampleStd sq (segment a sl zone .transit_time_days)).map _ = none
      simp [sampleStd, sampleVar, h2]
    · show (sampleStd sq (segment a sl zone .transit_time_days)).map _ = none
      simp [sampleStd, sampleVar, h2]
    · show (sampleStd sq (segment a sl zone .transit_time_days)).map _ = none
      simp [sampleStd, sampleVar, h2]

/-- C1 counterexample: on the one-record segment of `singleCfg`, the
reported standard deviation is NaN (`none`), not 0; the 2-sigma bounds are
NaN, not the value of the record; and `get_distribution_stats` raises rather
than reporting a zero standard deviation. -/
theorem single_record_counterexample :
    get_distribution_stats rsqrt (fun l => (0, 0)) [] singleCfg "A" 1 .transit_time_days
        = .error shapiroLenMsg ∧
    ∀ st, ("A", st) ∈ (sigma2ZoneOf rsqrt singleCfg 1).services →
      st.std = none ∧ st.std ≠ some 0 ∧ st.upper_2sigma = none ∧
        st.upper_2sigma ≠ some 4 ∧ st.lower_2sigma = none := by
  constructor
  · rfl
  · intro st hst
    have hsv : (sigma2ZoneOf rsqrt singleCfg 1).services = [("A", singleNaNStats)] := by
      decide
    rw [hsv] at hst
    have hpair := List.mem_singleton.mp hst
    have hstv : st = singleNaNStats := congrArg Prod.snd hpair
    subst hstv
    refine ⟨rfl, by simp [singleNaNStats], rfl, by simp [singleNaNStats], rfl⟩

/-- Witness: a one-record segment on which the amended C1 statement is
instantiated. -/
theorem single_record_stats_witness :
    get_distribution_stats rsqrt (fun l => (1, 1)) [] singleCfg "A" 1 .transit_time_days
        = .error shapiroLenMsg ∧
    ∃ zc st, (1, zc) ∈ compare_service_levels_2sigma rsqrt singleCfg [1] ∧
      ("A", st) ∈ zc.services ∧ st.std = none ∧ st.lower_2sigma = none ∧
      st.upper_2sigma = none ∧ st.range_2sigma = none :=
  single_record_stats rsqrt (fun l => (1, 1)) [] singleCfg "A" 1 .transit_time_days [1]
    (by decide) (by decide) (by decide) (by decide)

/-! ### Claim C3: the 2-sigma winner has the least upper bound (corrected) -/

/-- C3 amended: in a zone where every service level with data has at least
two records (so no standard deviation is NaN), the selected winner carries
the least `upper_2sigma` bound, and every service level listed before it
has a strictly larger bound — ties go to the first service level in
catalog iteration order. -/
theorem sigma2_winner_minimal (sq : ℚ → ℚ) (a : Analyzer) (zones : List Int)
    (zone : Int) (zc : Sigma2Zone) (w : SLWinner)
    (hzc : (zone, zc) ∈ compare_service_levels_2sigma sq a zones)
    (hdata : ∀ s ∈ a.metadata.service_levels,
      segment a s zone .transit_time_days ≠ [] →
        2 ≤ (segment a s zone .transit_time_days).length)
    (hw : zc.winner = some w) :
    ∃ u st l₁ l₂, w.transit_time_upper = some u ∧
      zc.services = l₁ ++ (w.service_level, st) :: l₂ ∧ st.upper_2sigma = some u ∧
      (∀ e ∈ zc.services, ∃ v, e.2.upper_2sigma = some v ∧ u ≤ v) ∧
      ∀ e ∈ l₁, ∃ v, e.2.upper_2sigma = some v ∧ u < v := by
  obtain ⟨z, hzmem, hzeq⟩ := List.mem_map.mp hzc
  have hz1 : z = zone := congrArg Prod.fst hzeq
  have hz2 : zc = sigma2ZoneOf sq a zone := by
    have := congrArg Prod.snd hzeq
    simp only at this
    rw [← this, hz1]
  subst hz2
  have hall : ∀ e ∈ (sigma2ZoneOf sq a zone).services, (e.2.upper_2sigma).isSome := by
    intro e he
    obtain ⟨s, hs, hentry⟩ := List.mem_filterMap.mp he
    unfold sigma2Entry at hentry
    by_cases hc : (segment a s zone .transit_time_days).length = 0
    · rw [if_pos hc] at hentry
      exact absurd hentry (by simp)
    · rw [if_neg hc] at hentry
      have hlen2 : 2 ≤ (segment a s zone .transit_time_days).length :=
        hdata s hs (fun hnil => hc (by rw [hnil]; rfl))
      have he2 : e.2 = sigma2StatsOf sq (segment a s zone .transit_time_days) := by
        have hpair := Option.some.inj hentry
        have := congrArg Prod.snd hpair
        simpa using this.symm
      rw [he2]
      show ((sampleStd sq (segment a s zone .transit_time_days)).map _).isSome
      have hvar : sampleVar (segment a s zone .transit_time_days) =
          some (ssq (segment a s zone .transit_time_days)
            / (((segment a s zone .transit_time_days).length : ℚ) - 1)) := by
        unfold sampleVar
        rw [if_neg (by omega)]
      simp [sampleStd, hvar]
  have hwin : (sigma2ZoneOf sq a zone).winner =
      (pyMinBy (fun e => e.2.upper_2sigma) (sigma2ZoneOf sq a zone).services).map
        (fun e => { service_level := e.1, reason := "lowest_2sigma_upper_bound"
                    transit_time_upper := e.2.upper_2sigma }) := rfl
  rw [hwin] at hw
  obtain ⟨e₀, he₀, hwe⟩ := Option.map_eq_some'.mp hw
  obtain ⟨l₁, l₂, hdec, hstrict, hmin⟩ :=
    pyMinBy_spec (fun e => e.2.upper_2sigma) _ e₀ he₀ hall
  have he₀mem : e₀ ∈ (sigma2ZoneOf sq a zone).services := by
    rw [hdec]
    exact List.mem_append.mpr (Or.inr (List.mem_cons_self _ _))
  obtain ⟨u, hu⟩ := Option.isSome_iff_exists.mp (hall e₀ he₀mem)
  refine ⟨u, e₀.2, l₁, l₂, ?_, ?_, hu, ?_, ?_⟩
  · rw [← hwe]
    exact hu
  · rw [← hwe]
    simpa using hdec
  · intro e he
    obtain ⟨v, hv⟩ := Option.isSome_iff_exists.mp (hall e he)
    refine ⟨v, hv, ?_⟩
    have := hmin e he
    rw [hu, hv] at this
    simpa using this
  · intro e he
    obtain ⟨v, hv⟩ := Option.isSome_iff_exists.mp
      (hall e (by rw [hdec]; exact List.mem_append.mpr (Or.inl he)))
    refine ⟨v, hv, ?_⟩
    have := hstrict e he
    rw [hu, hv] at this
    simpa using this

/-- Witness for the amended C3: on two tied service levels the winner is
the catalog-first one, with the minimal upper bound. -/
theorem sigma2_winner_minimal_witness :
    ∃ u st l₁ l₂,
      (some (5 : ℚ)) = some u ∧
      (sigma2ZoneOf rsqrt sigma2TieCfg 1).services = l₁ ++ ("A", st) :: l₂ ∧
      st.upper_2sigma = some u ∧
      (∀ e ∈ (sigma2ZoneOf rsqrt sigma2TieCfg 1).services,
        ∃ v, e.2.upper_2sigma = some v ∧ u ≤ v) ∧
      ∀ e ∈ l₁, ∃ v, e.2.upper_2sigma = some v ∧ u < v :=
  sigma2_winner_minimal rsqrt sigma2TieCfg [1] 1 (sigma2ZoneOf rsqrt sigma2TieCfg 1)
    { service_level := "A", reason := "lowest_2sigma_upper_bound"
      transit_time_upper := some 5 }
    (by decide) (by decide) (by decide)

/-- C3 counterexample: with a one-record service level first in catalog
order, the Python `min` keeps its NaN upper bound (NaN comparisons are
false), so the winner is "A" with a NaN bound that is not below service
level "B", whose bound is 5. -/
theorem sigma2_winner_nan_counterexample :
    ¬ Claim3At rsqrt sigma2NaNCfg 1 ∧
    (sigma2ZoneOf rsqrt sigma2NaNCfg 1).winner =
      some { service_level := "A", reason := "lowest_2sigma_upper_bound"
             transit_time_upper := none } ∧
    ∃ st, ("B", st) ∈ (sigma2ZoneOf rsqrt sigma2NaNCfg 1).services ∧
      st.upper_2sigma = some 5 := by
  refine ⟨?_, by decide, ?_⟩
  · intro h
    obtain ⟨u, v, hu, hv, huv⟩ := h
      { service_level := "A", reason := "lowest_2sigma_upper_bound"
        transit_time_upper := none }
      (by decide)
      (("B", { mean := 5, std := some 0, lower_2sigma := some 5, upper_2sigma := some 5
               range_2sigma := some 0, ci95_low := some 5, ci95_high := some 5 }))
      (by decide)
    exact absurd hu (by simp)
  · refine ⟨{ mean := 5, std := some 0, lower_2sigma := some 5, upper_2sigma := some 5
              range_2sigma := some 0, ci95_low := some 5, ci95_high := some 5 }, ?_, rfl⟩
    decide

/-! ### Claim C2: the request loop survives per-request failures (code bug) -/

/-- C2, evaluating the code at the failing input: a line holding the valid
JSON value `42` (not an object) makes `request_data.get("type")` raise
`AttributeError` before `request_id` is assigned; the `except` handler in
`handle_request` then trips over the unbound `request_id` and the resulting
`UnboundLocalError` is only caught by the outer handler of `run`, which
calls `sys.exit(1)`.  The loop stops: the well-formed follow-up request on
the next line is never answered, for every possible analyzer behaviour
`exec`. -/
theorem request_loop_crash_on_nonobject (exec : String → List PyVal → Except PyExc PyVal) :
    serviceRun exec
      [some (.pynum 42),
       some (.pyobj [("type", .pystr "summary"), ("id", .pystr "r1")])]
      = ([], .exited 1) := rfl

/-- Complement to C2 used for the divergence report: an unparsable line and
an unknown operation name both produce structured error responses and the
loop continues to the next request; the crash is specific to
non-object requests. -/
theorem request_loop_survives_known_failures
    (exec : String → List PyVal → Except PyExc PyVal) :
    serviceRun exec [none, some (.pyobj [("type", .pystr "frobnicate"), ("id", .pynum 7)])]
      = ([{ success := false, data := none, error := some "Invalid JSON", request_id := none },
          { success := false, data := none,
            error := some "Unknown request type: frobnicate", request_id := some (.pynum 7) }],
         .eof) := rfl

/-! ### Claim C8: the Shapiro–Wilk subsample is drawn non-deterministically
(code bug) -/

lemma c8data_length : c8data.length = 5001 := by
  unfold c8data
  rw [List.length_append, List.length_replicate]
  rfl

lemma c8data_getD_lt (j : ℕ) (hj : j < 5000) : c8data.getD j 0 = 0 := by
  unfold c8data
  have hj' : j < (List.replicate 5000 (0:ℚ)).length := by
    rw [List.length_replicate]; exact hj
  rw [List.getD_append _ _ 0 j hj', List.getD_eq_getElem _ _ hj']
  exact List.getElem_replicate (0:ℚ) hj'

lemma c8data_getD_last : c8data.getD 5000 0 = 1 := by
  unfold c8data
  have hle : (List.replicate 5000 (0:ℚ)).length ≤ 5000 := by
    rw [List.length_replicate]
  rw [List.getD_append_right _ _ 0 5000 hle, List.length_replicate]
  rfl

/-- C8: two valid draws of the capped normality-test subsample (both pick
5000 distinct in-range rows, as the unseeded `Series.sample(5000)` may)
hand different value multisets to `scipy.stats.shapiro` — one is all
zeros, the other contains the 1 — so repeated `distribution_stats` calls
on the same immutable dataset are not reproducible. -/
theorem shapiro_sample_nondeterministic :
    ∃ c₁ c₂ : List ℕ, ValidSampleChoice c8data c₁ ∧ ValidSampleChoice c8data c₂ ∧
      (normalitySample c8data c₁ : Multiset ℚ) ≠ (normalitySample c8data c₂ : Multiset ℚ) := by
  refine ⟨List.range 5000, (List.range 5000).map (fun j => j + 1), ?_, ?_, ?_⟩
  · refine ⟨List.nodup_range 5000, ?_, ?_⟩
    · rw [List.length_range, c8data_length]
      exact (min_eq_left (by omega)).symm
    · intro i hi
      have := List.mem_range.mp hi
      rw [c8data_length]
      omega
  · refine ⟨(List.nodup_range 5000).map (fun a b h => by omega), ?_, ?_⟩
    · rw [List.length_map, List.length_range, c8data_length]
      exact (min_eq_left (by omega)).symm
    · intro i hi
      obtain ⟨j, hj, hij⟩ := List.mem_map.mp hi
      have := List.mem_range.mp hj
      rw [c8data_length]
      omega
  · intro h
    have h1mem : (1:ℚ) ∈ normalitySample c8data ((List.range 5000).map (fun j => j + 1)) := by
      unfold normalitySample
      apply List.mem_map.mpr
      refine ⟨5000, ?_, c8data_getD_last⟩
      exact List.mem_map.mpr ⟨4999, List.mem_range.mpr (by omega), rfl⟩
    have h1not : (1:ℚ) ∉ normalitySample c8data (List.range 5000) := by
      unfold normalitySample
      intro hmem
      obtain ⟨j, hj, hval⟩ := List.mem_map.mp hmem
      have hval' : c8data.getD j 0 = 1 := hval
      rw [c8data_getD_lt j (List.mem_range.mp hj)] at hval'
      exact absurd hval' (by norm_num)
    have h1m : (1:ℚ) ∈ (normalitySample c8data (List.range 5000) : Multiset ℚ) := by
      rw [h]
      exact Multiset.mem_coe.mpr h1mem
    exact h1not (Multiset.mem_coe.mp h1m)

/-! ### Claim C5: carriers with at most 5 records are excluded entirely -/

lemma carrierZoneOf_comparisons (sq : ℚ → ℚ) (a : Analyzer) (m : Metric) (zone : Int) :
    (carrierZoneOf sq a m zone).comparisons =
      (uniqueFirst ((a.df.filter (fun r => r.dest_zone = zone)).map
          (fun r => r.service_level))).map
        (fun service => (service, serviceComparisonOf sq a zone m (zoneCarriers a zone) service)) :=
  rfl

lemma serviceComparisonOf_stats (sq : ℚ → ℚ) (a : Analyzer) (zone : Int) (m : Metric)
    (carriers : List String) (service : String) :
    (serviceComparisonOf sq a zone m carriers service).stats =
      carriers.filterMap (fun carrier =>
        if 5 < (carrierSegment a carrier service zone m).length
        then some (carrier, carrierStatOf sq (carrierSegment a carrier service zone m))
        else none) :=
  rfl

lemma serviceComparisonOf_winner_median (sq : ℚ → ℚ) (a : Analyzer) (zone : Int)
    (m : Metric) (carriers : List String) (service : String) (w : WinnerMedian)
    (hw : (serviceComparisonOf sq a zone m carriers service).winner_median = some w) :
    ∃ e ∈ (serviceComparisonOf sq a zone m carriers service).stats, w.carrier = e.1 := by
  obtain ⟨e, he, hwe⟩ := Option.map_eq_some'.mp hw
  exact ⟨e, pyMinBy_mem _ _ e he, by rw [← hwe]⟩

lemma serviceComparisonOf_winner_2sigma (sq : ℚ → ℚ) (a : Analyzer) (zone : Int)
    (m : Metric) (carriers : List String) (service : String) (w : Winner2Sigma)
    (hw : (serviceComparisonOf sq a zone m carriers service).winner_2sigma = some w) :
    ∃ e ∈ (serviceComparisonOf sq a zone m carriers service).stats, w.carrier = e.1 := by
  obtain ⟨e, he, hwe⟩ := Option.map_eq_some'.mp hw
  exact ⟨e, pyMinBy_mem _ _ e he, by rw [← hwe]⟩

/-- No stats row for a carrier whose segment has at most 5 records. -/
lemma low_sample_not_in_stats (sq : ℚ → ℚ) (a : Analyzer) (zone : Int) (m : Metric)
    (carriers : List String) (service carrier : String)
    (h5 : (carrierSegment a carrier service zone m).length ≤ 5) :
    ∀ st, (carrier, st) ∉ (serviceComparisonOf sq a zone m carriers service).stats := by
  intro st hmem
  rw [serviceComparisonOf_stats] at hmem
  obtain ⟨c, _, hc⟩ := List.mem_filterMap.mp hmem
  by_cases hlen : 5 < (carrierSegment a c service zone m).length
  · rw [if_pos hlen] at hc
    have hpair := Option.some.inj hc
    have hcc : c = carrier := congrArg Prod.fst hpair
    rw [hcc] at hlen
    omega
  · rw [if_neg hlen] at hc
    exact absurd hc (by simp)

/-- C5: in `compare_carriers_by_zone`, a carrier with at most 5 matching
records for a service level in a zone never appears among that
per-carrier statistics of that comparison, is never `winner_median` or
`winner_2sigma` there, and that (carrier, service) pair is never an
overall zone winner. -/
theorem low_sample_carrier_excluded (sq : ℚ → ℚ) (a : Analyzer) (zones : List Int)
    (m : Metric) (zone : Int) (zcmp : CarrierZone) (service carrier : String)
    (hz : (zone, zcmp) ∈ (compare_carriers_by_zone sq a zones m).zones)
    (h5 : (carrierSegment a carrier service zone m).length ≤ 5) :
    (∀ comp, (service, comp) ∈ zcmp.comparisons →
      (∀ st, (carrier, st) ∉ comp.stats) ∧
      (∀ w, comp.winner_median = some w → w.carrier ≠ carrier) ∧
      (∀ w, comp.winner_2sigma = some w → w.carrier ≠ carrier)) ∧
    (∀ ow, zcmp.overall_winner_median = some ow →
      ¬(ow.carrier = carrier ∧ ow.service_level = service)) ∧
    (∀ ow, zcmp.overall_winner_2sigma = some ow →
      ¬(ow.carrier = carrier ∧ ow.service_level = service)) := by
  obtain ⟨z, hzmem, hzeq⟩ := List.mem_map.mp hz
  have hz1 : z = zone := congrArg Prod.fst hzeq
  have hz2 : zcmp = carrierZoneOf sq a m zone := by
    have := congrArg Prod.snd hzeq
    simp only at this
    rw [← this, hz1]
  subst hz2
  have hcompeq : ∀ comp, (service, comp) ∈ (carrierZoneOf sq a m zone).comparisons →
      comp = serviceComparisonOf sq a zone m (zoneCarriers a zone) service := by
    intro comp hcomp
    rw [carrierZoneOf_comparisons] at hcomp
    obtain ⟨s, _, hseq⟩ := List.mem_map.mp hcomp
    have hs1 : s = service := congrArg Prod.fst hseq
    have hs2 := congrArg Prod.snd hseq
    simp only at hs2
    rw [← hs2, hs1]
  have hnostat := low_sample_not_in_stats sq a zone m (zoneCarriers a zone) service carrier h5
  refine ⟨?_, ?_, ?_⟩
  · intro comp hcomp
    have hce := hcompeq comp hcomp
    subst hce
    refine ⟨hnostat, ?_, ?_⟩
    · intro w hw hcarr
      obtain ⟨e, he, hwe⟩ := serviceComparisonOf_winner_median sq a zone m _ service w hw
      have hfst : e.1 = carrier := by rw [← hwe, hcarr]
      have hpe : e = (carrier, e.2) := by rw [← hfst]
      rw [hpe] at he
      exact hnostat e.2 he
    · intro w hw hcarr
      obtain ⟨e, he, hwe⟩ := serviceComparisonOf_winner_2sigma sq a zone m _ service w hw
      have hfst : e.1 = carrier := by rw [← hwe, hcarr]
      have hpe : e = (carrier, e.2) := by rw [← hfst]
      rw [hpe] at he
      exact hnostat e.2 he
  · intro ow how
    rintro ⟨hc, hs⟩
    have howm : (carrierZoneOf sq a m zone).overall_winner_median =
        (pyMinBy (fun c => some (c.median / c.reliability))
          (zoneCombos (carrierZoneOf sq a m zone).comparisons)).map (fun c =>
            { carrier := c.carrier, service_level := c.service
              median_value := c.median, reliability_score := c.reliability }) := rfl
    rw [howm] at how
    obtain ⟨e, he, hwe⟩ := Option.map_eq_some'.mp how
    have hemem := pyMinBy_mem _ _ e he
    obtain ⟨sc, hsc, hin⟩ := List.mem_flatMap.mp hemem
    obtain ⟨entry, hentry, heq⟩ := List.mem_map.mp hin
    have hec : e.carrier = entry.1 := by rw [← heq]
    have hes : e.service = sc.1 := by rw [← heq]
    have howc : ow.carrier = e.carrier := by rw [← hwe]
    have hows : ow.service_level = e.service := by rw [← hwe]
    have hsc1 : sc.1 = service := by rw [← hes, ← hows, hs]
    have hscmem : (service, sc.2) ∈ (carrierZoneOf sq a m zone).comparisons := by
      have : sc = (service, sc.2) := by rw [← hsc1]
      rw [← this]
      exact hsc
    have hsceq := hcompeq sc.2 hscmem
    have hentry' : (carrier, entry.2) ∈ sc.2.stats := by
      have hfst : entry.1 = carrier := by rw [← hec, ← howc, hc]
      have : entry = (carrier, entry.2) := by rw [← hfst]
      rw [← this]
      exact hentry
    rw [hsceq] at hentry'
    exact hnostat entry.2 hentry'
  · intro ow how
    rintro ⟨hc, hs⟩
    have how2 : (carrierZoneOf sq a m zone).overall_winner_2sigma =
        (pyMinBy (fun c => some c.upper_2sigma)
          (zoneCombos (carrierZoneOf sq a m zone).comparisons)).map (fun c =>
            { carrier := c.carrier, service_level := c.service
              upper_2sigma_value := c.upper_2sigma, median_value := c.median
              std_value := c.std }) := rfl
    rw [how2] at how
    obtain ⟨e, he, hwe⟩ := Option.map_eq_some'.mp how
    have hemem := pyMinBy_mem _ _ e he
    obtain ⟨sc, hsc, hin⟩ := List.mem_flatMap.mp hemem
    obtain ⟨entry, hentry, heq⟩ := List.mem_map.mp hin
    have hec : e.carrier = entry.1 := by rw [← heq]
    have hes : e.service = sc.1 := by rw [← heq]
    have howc : ow.carrier = e.carrier := by rw [← hwe]
    have hows : ow.service_level = e.service := by rw [← hwe]
    have hsc1 : sc.1 = service := by rw [← hes, ← hows, hs]
    have hscmem : (service, sc.2) ∈ (carrierZoneOf sq a m zone).comparisons := by
      have : sc = (service, sc.2) := by rw [← hsc1]
      rw [← this]
      exact hsc
    have hsceq := hcompeq sc.2 hscmem
    have hentry' : (carrier, entry.2) ∈ sc.2.stats := by
      have hfst : entry.1 = carrier := by rw [← hec, ← howc, hc]
      have : entry = (carrier, entry.2) := by rw [← hfst]
      rw [← this]
      exact hentry
    rw [hsceq] at hentry'
    exact hnostat entry.2 hentry'

/-- Witness for C5: carrier "X" (3 records) is excluded from the zone-1
comparison of `lowSampleCfg`. -/
theorem low_sample_carrier_excluded_witness :
    (∀ comp, ("S", comp) ∈ (carrierZoneOf rsqrt lowSampleCfg .transit_time_days 1).comparisons →
      (∀ st, ("X", st) ∉ comp.stats) ∧
      (∀ w, comp.winner_median = some w → w.carrier ≠ "X") ∧
      (∀ w, comp.winner_2sigma = some w → w.carrier ≠ "X")) ∧
    (∀ ow, (carrierZoneOf rsqrt lowSampleCfg .transit_time_days 1).overall_winner_median = some ow →
      ¬(ow.carrier = "X" ∧ ow.service_level = "S")) ∧
    (∀ ow, (carrierZoneOf rsqrt lowSampleCfg .transit_time_days 1).overall_winner_2sigma = some ow →
      ¬(ow.carrier = "X" ∧ ow.service_level = "S")) :=
  low_sample_carrier_excluded rsqrt lowSampleCfg [1] .transit_time_days 1
    (carrierZoneOf rsqrt lowSampleCfg .transit_time_days 1) "S" "X"
    (by decide) (by decide)

/-! ### Claim C9: the top carrier of the summary (corrected) -/

lemma summary_top_median_eq (zs : List CarrierZone) :
    (generate_carrier_comparison_summary zs).top_carrier_median =
      (pyMaxBy (fun e => e.2)
        (generate_carrier_comparison_summary zs).carrier_wins_by_median).map
          (fun e => e.1) := rfl

lemma summary_top_2sigma_eq (zs : List CarrierZone) :
    (generate_carrier_comparison_summary zs).top_carrier_2sigma =
      (pyMaxBy (fun e => e.2)
        (generate_carrier_comparison_summary zs).carrier_wins_by_2sigma).map
          (fun e => e.1) := rfl

/-- C9 amended: the per-method win tallies are two separate mappings, but
within each mapping the per-zone overall-winner counts live under
synthesized `"<carrier>_overall"` keys next to the plain carrier keys, and
`top_carrier_<method>` is the key of a maximal-count entry (the first
inserted wins ties) — a key that may be an `"_overall"` key rather than a
catalog carrier. -/
theorem summary_top_carrier_argmax (sq : ℚ → ℚ) (a : Analyzer) (zones : List Int)
    (m : Metric) :
    (∀ k, (compare_carriers_by_zone sq a zones m).summary.top_carrier_median = some k →
      ∃ l₁ l₂ n,
        (compare_carriers_by_zone sq a zones m).summary.carrier_wins_by_median
          = l₁ ++ (k, n) :: l₂ ∧
        (∀ e ∈ l₁, e.2 < n) ∧
        ∀ e ∈ (compare_carriers_by_zone sq a zones m).summary.carrier_wins_by_median,
          e.2 ≤ n) ∧
    (∀ k, (compare_carriers_by_zone sq a zones m).summary.top_carrier_2sigma = some k →
      ∃ l₁ l₂ n,
        (compare_carriers_by_zone sq a zones m).summary.carrier_wins_by_2sigma
          = l₁ ++ (k, n) :: l₂ ∧
        (∀ e ∈ l₁, e.2 < n) ∧
        ∀ e ∈ (compare_carriers_by_zone sq a zones m).summary.carrier_wins_by_2sigma,
          e.2 ≤ n) := by
  constructor
  · intro k hk
    rw [show (compare_carriers_by_zone sq a zones m).summary =
        generate_carrier_comparison_summary
          ((zones.map (fun zone => (zone, carrierZoneOf sq a m zone))).map
            (fun p => p.2)) from rfl, summary_top_median_eq] at hk
    obtain ⟨e, he, hke⟩ := Option.map_eq_some'.mp hk
    obtain ⟨l₁, l₂, hdec, hstrict, hmax⟩ := pyMaxBy_spec (fun e => e.2) _ e he
    refine ⟨l₁, l₂, e.2, ?_, hstrict, hmax⟩
    have : (k, e.2) = e := by
      rw [← hke]
    rw [this]
    exact hdec
  · intro k hk
    rw [show (compare_carriers_by_zone sq a zones m).summary =
        generate_carrier_comparison_summary
          ((zones.map (fun zone => (zone, carrierZoneOf sq a m zone))).map
            (fun p => p.2)) from rfl, summary_top_2sigma_eq] at hk
    obtain ⟨e, he, hke⟩ := Option.map_eq_some'.mp hk
    obtain ⟨l₁, l₂, hdec, hstrict, hmax⟩ := pyMaxBy_spec (fun e => e.2) _ e he
    refine ⟨l₁, l₂, e.2, ?_, hstrict, hmax⟩
    have : (k, e.2) = e := by
      rw [← hke]
    rw [this]
    exact hdec

/-- Witness for the amended C9 on `lowSampleCfg`, whose top median key is
carrier "Y". -/
theorem summary_top_carrier_argmax_witness :
    ∃ l₁ l₂ n,
      (compare_carriers_by_zone rsqrt lowSampleCfg [1] .transit_time_days).summary.carrier_wins_by_median
        = l₁ ++ ("Y", n) :: l₂ ∧
      (∀ e ∈ l₁, e.2 < n) ∧
      ∀ e ∈ (compare_carriers_by_zone rsqrt lowSampleCfg [1] .transit_time_days).summary.carrier_wins_by_median,
        e.2 ≤ n :=
  (summary_top_carrier_argmax rsqrt lowSampleCfg [1] .transit_time_days).1 "Y" (by decide)

/-- C9 counterexample: on `overallCfg` the median win tally is
`[UPS ↦ 1, DHL_overall ↦ 2, FedEx ↦ 1]`, so `top_carrier_median` is the
synthesized key `"DHL_overall"` — not a member of the carrier catalog
(DHL itself won no service-level median comparison), contradicting the
claim that the reported top carrier is the catalog carrier with the most
service-level wins. -/
theorem summary_top_overall_counterexample :
    (compare_carriers_by_zone rsqrt overallCfg [1, 2] .transit_time_days).summary.carrier_wins_by_median
      = [("UPS", 1), ("DHL_overall", 2), ("FedEx", 1)] ∧
    (compare_carriers_by_zone rsqrt overallCfg [1, 2] .transit_time_days).summary.top_carrier_median
      = some "DHL_overall" ∧
    (∀ r ∈ overallCfg.df, r.carrier ≠ "DHL_overall") ∧
    "DHL_overall" ∉ zoneCarriers overallCfg 1 ∧
    "DHL_overall" ∉ zoneCarriers overallCfg 2 := by
  refine ⟨by decide, by decide, by decide, by decide, by decide⟩

end Shipping
